import Mathlib

/-!
# TreeProxyModel (libtomahawk/playlist/treeproxymodel.cpp)

A shallow embedding of the filtering, ordering and navigation logic of
`TreeProxyModel`, together with the properties its specification states.

Conventions of the embedding:

* shared pointers (`artist_ptr`, `album_ptr`, `result_ptr`, `query_ptr`) become
  `Option` values, `none` being the null pointer; every pointee carries the
  address `ptr` it lives at, and pointer comparison compares `ptr`;
* dereferencing a null pointer and a failed `Q_ASSERT` are faults, returned in
  `Except Fault`;
* `unsigned int` album positions are natural numbers (only compared, never
  added, so no wrap-around can occur);
* strings are Lean strings; Qt's case-insensitive comparison is rendered by
  lower-casing both sides with `Char.toLower`.
-/

namespace Tomahawk

/-! ## Domain objects -/

/-- Source of a collection: only its `isLocal()` flag is used. -/
structure Source where
  isLocal : Bool
  deriving DecidableEq, Repr

/-- Collection owning a result; `source()` may be null. -/
structure Collection where
  source : Option Source
  deriving DecidableEq, Repr

/-- Artist object: `ptr` is its address, `name()` and `sortname()` its accessors. -/
structure Artist where
  ptr : Nat
  name : String
  sortname : String
  deriving DecidableEq, Repr

/-- Album object with its database `id()` and `name()`. -/
structure Album where
  ptr : Nat
  id : Nat
  name : String
  deriving DecidableEq, Repr

/-- Result object, a concrete playable track: `track()`, `albumpos()`, `isOnline()`,
`collection()`; `ptr` is the value of `result_ptr::data()`. -/
structure Result where
  ptr : Nat
  track : String
  albumpos : Nat
  isOnline : Bool
  collection : Option Collection
  deriving DecidableEq, Repr

/-- Query object, an abstract track request: `track()` and `albumpos()`. -/
structure Query where
  ptr : Nat
  track : String
  albumpos : Nat
  deriving DecidableEq, Repr

/-- Node of the source tree (`TreeModelItem`).  The four references are the
accessors `artist()`, `album()`, `result()`, `query()`; `name`, `albumName` and
`artistName` are the values of the accessors of the same names, which are
implemented outside treeproxymodel.cpp; `ptr` is the address of the node. -/
structure TreeModelItem where
  ptr : Nat
  artist : Option Artist
  album : Option Album
  result : Option Result
  query : Option Query
  name : String
  albumName : String
  artistName : String
  deriving DecidableEq, Repr

/-- Faults of an evaluation: a failed `Q_ASSERT` or a null-pointer dereference. -/
inductive Fault where
  | assertFailed
  | nullDeref
  deriving DecidableEq, Repr

/-- Model modes (`Tomahawk::ModelMode`); only `DatabaseMode` is tested by the proxy. -/
inductive ModelMode where
  | DatabaseMode
  | OtherMode
  deriving DecidableEq, Repr

/-- Repeat modes of `PlaylistInterface`. -/
inductive RepeatMode where
  | NoRepeat
  | RepeatOne
  | RepeatAll
  deriving DecidableEq, Repr

/-! ## Ordering engine -/

/-- What `lessThan` and `textForItem` take from outside treeproxymodel.cpp:
`DatabaseImpl::sortname`, `QString::localeAwareCompare`, and the addresses at
which the two local variables `p1` and `p2` of `lessThan` are stored. -/
structure Platform where
  sortname : String → String
  localeAwareCompare : String → String → Int
  addr_p1 : Nat
  addr_p2 : Nat

/-- `TreeProxyModel::textForItem`. -/
def textForItem (pf : Platform) (item : Option TreeModelItem) : String :=
  match item with
  | none => ""
  | some it =>
    match it.artist with
    | some a => a.sortname
    | none =>
      match it.album with
      | some al => pf.sortname al.name
      | none =>
        match it.result with
        | some r => pf.sortname r.track
        | none =>
          match it.query with
          | some q => q.track
          | none => ""

/-- Value of `albumpos1` (resp. `albumpos2`) when `lessThan` reaches line 292:
0, overwritten by the query position when there is a query, then overwritten by
the result position when still 0 and there is a result. -/
def albumposOf (p : TreeModelItem) : Nat :=
  let pos0 : Nat := 0
  let pos1 := match p.query with
    | some q => q.albumpos
    | none => pos0
  if pos1 == 0 then
    match p.result with
    | some r => r.albumpos
    | none => pos1
  else pos1

/-- `TreeProxyModel::lessThan`; the arguments are the items `itemFromIndex`
yields for the two indexes (`none` for a null item). -/
def lessThan (pf : Platform) (p1 p2 : Option TreeModelItem) : Bool :=
  match p1 with
  | none => true
  | some i1 =>
    match p2 with
    | none => false
    | some i2 =>
      let albumpos1 := albumposOf i1
      let albumpos2 := albumposOf i2
      let lefts := textForItem pf (some i1)
      let rights := textForItem pf (some i2)
      if albumpos1 != albumpos2 then decide (albumpos1 < albumpos2)
      else if lefts == rights then decide ((pf.addr_p1 : Int) < (pf.addr_p2 : Int))
      else decide (pf.localeAwareCompare lefts rights < 0)

/-- Effective album position as the specification words it: the query position
if there is a query and its position is nonzero, otherwise the result position
if there is a result, otherwise 0. -/
def effpos (p : TreeModelItem) : Nat :=
  match p.query, p.result with
  | some q, some r => if q.albumpos ≠ 0 then q.albumpos else r.albumpos
  | some q, none => if q.albumpos ≠ 0 then q.albumpos else 0
  | none, some r => r.albumpos
  | none, none => 0

/-! ## Strings -/

/-- Case folding used for `Qt::CaseInsensitive` matching. -/
def foldCase (s : String) : List Char :=
  s.data.map Char.toLower

/-- `hay.contains( needle, Qt::CaseInsensitive )`: the folded needle starts at
some position of the folded haystack. -/
def containsCI (hay needle : String) : Bool :=
  (foldCase hay).tails.any (fun t => (foldCase needle).isPrefixOf t)

/-- `s.split( " ", QString::SkipEmptyParts )`: the maximal runs of characters
other than the space character. -/
def splitSkipEmpty (s : String) : List String :=
  ((s.data.splitOn ' ').filter (fun w => !w.isEmpty)).map String.mk

/-! ## Source tree and proxy state -/

/-- Identity of a source-model index (a `QModelIndex`, the root index included). -/
abbrev ModelIndex := Nat

/-- The part of the source `TreeModel` the proxy reads: `mode()`, the items of
the rows under each parent index (`itemFromIndex( index( row, 0, parent ) )`,
`none` for a null item; the length of the list is `rowCount( parent )`), and
`rowCount( indexFromArtist( artist ) )`. -/
structure TreeModel where
  mode : ModelMode
  children : ModelIndex → List (Option TreeModelItem)
  artistRowCount : Artist → Nat

/-- Member variables of `TreeProxyModel`.  `m_cache` is the multi-map from
parent index to accepted results, most recent insertion first (the order in
which `values()` lists them); `m_artistsFilterCmd` is the handle of the pending
artist command, `none` for the null pointer. -/
structure TreeProxyModel where
  m_filter : String
  m_artistsFilter : List Artist
  m_albumsFilter : List Nat
  m_cache : List (ModelIndex × Option Result)
  m_artistsFilterCmd : Option Nat
  m_repeatMode : RepeatMode
  m_shuffled : Bool
  deriving DecidableEq, Repr

/-- `TreeProxyModel::onModelReset`. -/
def onModelReset (px : TreeProxyModel) : TreeProxyModel :=
  { px with m_cache := [], m_artistsFilter := [], m_albumsFilter := [] }

/-! ## Row acceptance engine -/

/-- `m_cache.values( parent )`. -/
def cacheValues (cache : List (ModelIndex × Option Result)) (parent : ModelIndex) :
    List (Option Result) :=
  (cache.filter (fun e => e.1 == parent)).map (fun e => e.2)

/-- `m_cache.insertMulti( parent, result )`. -/
def insertMulti (cache : List (ModelIndex × Option Result)) (parent : ModelIndex)
    (r : Option Result) : List (ModelIndex × Option Result) :=
  (parent, r) :: cache

/-- `r->collection()->source()->isLocal()`. -/
def sourceIsLocal (r : Result) : Except Fault Bool :=
  match r.collection with
  | none => .error .nullDeref
  | some c =>
    match c.source with
    | none => .error .nullDeref
    | some s => .ok s.isLocal

/-- The loop over the cached results (lines 210-217): `some b` when the loop
returns `b` from `filterAcceptsRow`, `none` when it runs to its end. -/
def scanCache (r : Result) : List (Option Result) → Except Fault (Option Bool)
  | [] => .ok none
  | none :: _ => .error .nullDeref
  | some cachedResult :: rest =>
    if cachedResult.track == r.track &&
        (cachedResult.albumpos == r.albumpos || cachedResult.albumpos == 0) then
      .ok (some (cachedResult.ptr == r.ptr))
    else scanCache r rest

/-- The loop over the sibling rows (lines 219-235), started at row `i` with the
rows from `i` on: `true` when the loop returns false from `filterAcceptsRow`,
`false` when it runs to its end. -/
def scanSiblings (item : TreeModelItem) (r : Result) (sourceRow : Nat) :
    Nat → List (Option TreeModelItem) → Except Fault Bool
  | _, [] => .ok false
  | i, t :: rest =>
    if i == sourceRow then scanSiblings item r sourceRow (i + 1) rest
    else
      match t with
      | none => .error .nullDeref
      | some ti =>
        if ti.name == item.name then
          match ti.result with
          | none => .error .nullDeref
          | some tr =>
            if tr.albumpos == r.albumpos || tr.albumpos == 0 || r.albumpos == 0 then
              if !r.isOnline && tr.isOnline then .ok true
              else
                match sourceIsLocal r with
                | .error e => .error e
                | .ok itemLocal =>
                  if !itemLocal then
                    match sourceIsLocal tr with
                    | .error e => .error e
                    | .ok tiLocal =>
                      if tiLocal then .ok true
                      else scanSiblings item r sourceRow (i + 1) rest
                  else scanSiblings item r sourceRow (i + 1) rest
            else scanSiblings item r sourceRow (i + 1) rest
        else scanSiblings item r sourceRow (i + 1) rest

/-- The duplicate-suppression block (lines 207-236): `some b` when it returns
`b` from `filterAcceptsRow`, `none` when control reaches line 238. -/
def duplicateCheck (px : TreeProxyModel) (m : TreeModel) (item : TreeModelItem)
    (sourceRow : Nat) (sourceParent : ModelIndex) : Except Fault (Option Bool) :=
  match item.result with
  | none => .ok none
  | some r =>
    if m.mode == ModelMode.DatabaseMode then
      match scanCache r (cacheValues px.m_cache sourceParent) with
      | .error e => .error e
      | .ok (some b) => .ok (some b)
      | .ok none =>
        match scanSiblings item r sourceRow 0 (m.children sourceParent) with
        | .error e => .error e
        | .ok true => .ok (some false)
        | .ok false => .ok none
    else .ok none

/-- Value of `accepted` at line 246. -/
def acceptedByKind (px : TreeProxyModel) (item : TreeModelItem) : Bool :=
  if px.m_filter.isEmpty then true
  else
    match item.artist with
    | some a => px.m_artistsFilter.any (fun x => x.ptr == a.ptr)
    | none =>
      match item.album with
      | some al => px.m_albumsFilter.contains al.id
      | none => false

/-- The term loop of lines 248-257: `true` when every term of the filter occurs
in the name, the album name or the artist name of the item. -/
def termsMatch (px : TreeProxyModel) (item : TreeModelItem) : Bool :=
  (splitSkipEmpty px.m_filter).all (fun s =>
    !(!containsCI item.name s && !containsCI item.albumName s && !containsCI item.artistName s))

/-- `TreeProxyModel::filterAcceptsRow`: the verdict and the proxy afterwards
(`m_cache` is mutable). -/
def filterAcceptsRow (px : TreeProxyModel) (m : TreeModel) (sourceRow : Nat)
    (sourceParent : ModelIndex) : Except Fault (Bool × TreeProxyModel) :=
  match ((m.children sourceParent).get? sourceRow).join with
  | none => .error .assertFailed
  | some item =>
    match duplicateCheck px m item sourceRow sourceParent with
    | .error e => .error e
    | .ok (some b) => .ok (b, px)
    | .ok none =>
      if !acceptedByKind px item && !termsMatch px item then .ok (false, px)
      else .ok (true, { px with m_cache := insertMulti px.m_cache sourceParent item.result })

/-! ## Filter controller -/

/-- Signals the proxy emits. -/
inductive Signal where
  | filteringStarted
  | filterChanged (filter : String)
  | trackCountChanged
  | filteringFinished
  deriving DecidableEq, Repr

/-- Database commands the proxy enqueues. -/
inductive DatabaseCommand where
  | AllArtists (filter : String)
  | AllAlbums (artist : Artist) (filter : String)
  deriving DecidableEq, Repr

/-- A command enqueued with `Database::instance()->enqueue` that has not
completed yet: its handle, the command, and whether its result signal is still
connected to the slot of the proxy. -/
structure PendingCommand where
  handle : Nat
  cmd : DatabaseCommand
  connected : Bool
  deriving DecidableEq, Repr

/-- The proxy together with what its slots act on: the commands in flight, the
next free command handle, and the signals emitted so far (oldest first). -/
structure Controller where
  proxy : TreeProxyModel
  queue : List PendingCommand
  nextHandle : Nat
  emitted : List Signal
  deriving DecidableEq, Repr

/-- Events delivered to the proxy: a call of `setFilter`, the `rowsInserted`
signal of the source model (with the item `pi` looked up for the parent), and
the completion of the command with a given handle, carrying its result. -/
inductive Event where
  | setFilter (pattern : String)
  | rowsInserted (pi : TreeModelItem)
  | artists (handle : Nat) (result : List Artist)
  | albums (handle : Nat) (result : List Album)
  deriving DecidableEq, Repr

/-- `Database::instance()->enqueue( cmd )` for a freshly created command whose
result signal has been connected. -/
def enqueue (c : Controller) (cmd : DatabaseCommand) : Controller :=
  { c with queue := c.queue ++ [{ handle := c.nextHandle, cmd := cmd, connected := true }],
           nextHandle := c.nextHandle + 1 }

/-- `disconnect( cmd, SIGNAL( artists( ... ) ), this, SLOT( onFilterArtists( ... ) ) )`. -/
def disconnectCmd (c : Controller) (h : Nat) : Controller :=
  { c with queue := c.queue.map (fun p => if p.handle == h then { p with connected := false } else p) }

/-- `TreeProxyModel::filterFinished`.  (`PlaylistInterface::setFilter` and
`setFilterRegExp` act on the Qt base classes and are not represented.) -/
def filterFinished (c : Controller) : Controller :=
  { c with proxy := { c.proxy with m_artistsFilterCmd := none },
           emitted := c.emitted ++ [Signal.filterChanged c.proxy.m_filter,
                                    Signal.trackCountChanged, Signal.filteringFinished] }

/-- `TreeProxyModel::setFilter`.  `m_model` is the source-model pointer of the
proxy, `none` for the null pointer the constructor leaves until
`setSourceTreeModel` attaches a model; with a non-empty pattern line 137
dereferences it (`m_model->collection()`). -/
def setFilter (m_model : Option TreeModel) (c : Controller) (pattern : String) :
    Except Fault Controller :=
  let c1 : Controller := { c with emitted := c.emitted ++ [Signal.filteringStarted] }
  let c2 : Controller := { c1 with proxy := { c1.proxy with m_filter := pattern, m_albumsFilter := [] } }
  let c3 : Controller :=
    match c2.proxy.m_artistsFilterCmd with
    | some h => { disconnectCmd c2 h with proxy := { c2.proxy with m_artistsFilterCmd := none } }
    | none => c2
  if c3.proxy.m_filter.isEmpty then .ok (filterFinished c3)
  else
    match m_model with
    | none => .error Fault.nullDeref
    | some _ =>
      let c4 : Controller :=
        { c3 with proxy := { c3.proxy with m_artistsFilterCmd := some c3.nextHandle } }
      .ok (enqueue c4 (DatabaseCommand.AllArtists pattern))

/-- The `foreach` loop of `onFilterArtists`: the controller after the loop and
the value of `finished`. -/
def requestAlbums (m : TreeModel) : List Artist → Controller × Bool → Controller × Bool
  | [], acc => acc
  | artist :: rest, (c, finished) =>
    if m.artistRowCount artist != 0 then
      requestAlbums m rest (enqueue c (DatabaseCommand.AllAlbums artist c.proxy.m_filter), false)
    else requestAlbums m rest (c, finished)

/-- `TreeProxyModel::onFilterArtists`. -/
def onFilterArtists (m : TreeModel) (c : Controller) (artists : List Artist) : Controller :=
  let c1 : Controller := { c with proxy := { c.proxy with m_artistsFilter := artists } }
  let r := requestAlbums m artists (c1, true)
  if r.2 then filterFinished r.1 else r.1

/-- `TreeProxyModel::onFilterAlbums`. -/
def onFilterAlbums (c : Controller) (albums : List Album) : Controller :=
  filterFinished
    { c with proxy := { c.proxy with m_albumsFilter := c.proxy.m_albumsFilter ++ albums.map (fun a => a.id) } }

/-- `TreeProxyModel::onRowsInserted`, for a signal sent by `m_model`. -/
def onRowsInserted (c : Controller) (pi : TreeModelItem) : Controller :=
  if c.proxy.m_filter.isEmpty then c
  else
    match pi.artist with
    | none => c
    | some a => enqueue c (DatabaseCommand.AllAlbums a c.proxy.m_filter)

/-- Completion of the command with handle `h`: it leaves the queue, and its
result signal runs the connected slot, if it is still connected. -/
def complete (c : Controller) (h : Nat) : Option PendingCommand × Controller :=
  (c.queue.find? (fun p => p.handle == h),
   { c with queue := c.queue.filter (fun p => !(p.handle == h)) })

/-- One event of the single-threaded event loop of a proxy to which the source
model `m` is attached (`m_model` points to `m`, so `setFilter` does not fault). -/
def step (m : TreeModel) (c : Controller) : Event → Controller
  | Event.setFilter pattern =>
    match setFilter (some m) c pattern with
    | .ok c1 => c1
    | .error _ => c
  | Event.rowsInserted pi => onRowsInserted c pi
  | Event.artists h result =>
    match complete c h with
    | (some p, c1) =>
      match p.cmd with
      | DatabaseCommand.AllArtists _ => if p.connected then onFilterArtists m c1 result else c1
      | DatabaseCommand.AllAlbums _ _ => c
    | (none, _) => c
  | Event.albums h result =>
    match complete c h with
    | (some p, c1) =>
      match p.cmd with
      | DatabaseCommand.AllAlbums _ _ => if p.connected then onFilterAlbums c1 result else c1
      | DatabaseCommand.AllArtists _ => c
    | (none, _) => c

/-- A run of the event loop, with the source model `m` attached, over a list of events. -/
def run (m : TreeModel) (c : Controller) (events : List Event) : Controller :=
  events.foldl (step m) c

/-- The member values the constructor of `TreeProxyModel` sets, with an idle
database.  (The source-model pointer is not part of this record: it is the
argument `m_model` of `setFilter` and the model `m` of `step` and `run`.) -/
def Controller.init : Controller :=
  { proxy := { m_filter := "", m_artistsFilter := [], m_albumsFilter := [], m_cache := [],
               m_artistsFilterCmd := none, m_repeatMode := RepeatMode.NoRepeat,
               m_shuffled := false },
    queue := [], nextHandle := 0, emitted := [] }

/-! ## Navigation engine -/

/-- The sibling rows of the current index in the proxy (`rows.length` is
`rowCount( idx.parent() )`, entry `r` is `itemFromIndex( mapToSource( index( r, 0,
parent ) ) )`), and the row of the current index, `none` when there is none. -/
structure PlaylistView where
  rows : List (Option TreeModelItem)
  current : Option Nat
  deriving DecidableEq, Repr

/-- `index( r, 0, parent )`: valid exactly for the existing rows. -/
def index (rows : List (Option TreeModelItem)) (r : Int) : Option Nat :=
  if 0 ≤ r ∧ r < rows.length then some r.toNat else none

/-- `currentIndex()`: an index is valid only if it addresses an existing row. -/
def currentIndex (v : PlaylistView) : Option Nat :=
  match v.current with
  | none => none
  | some r => index v.rows r

/-- `itemFromIndex( mapToSource( idx ) )` for the proxy row `r`. -/
def itemFromIndex (rows : List (Option TreeModelItem)) (r : Nat) : Option TreeModelItem :=
  (rows.get? r).join

/-- Row step of `siblingItem`: `itemsAway > 0 ? 1 : -1`. -/
def rowStep (itemsAway : Int) : Int :=
  if itemsAway > 0 then 1 else -1

/-- The `while ( idx.isValid() )` loop of `siblingItem` (lines 378-390), run
for at most `fuel` iterations from index `idx`: the row and result found. -/
def seek (rows : List (Option TreeModelItem)) (itemsAway : Int) :
    Nat → Option Nat → Option (Nat × Result)
  | 0, _ => none
  | _ + 1, none => none
  | fuel + 1, some r =>
    match itemFromIndex rows r with
    | some item =>
      match item.result with
      | some res =>
        if res.isOnline then some (r, res)
        else seek rows itemsAway fuel (index rows ((r : Int) + rowStep itemsAway))
      | none => seek rows itemsAway fuel (index rows ((r : Int) + rowStep itemsAway))
    | none => seek rows itemsAway fuel (index rows ((r : Int) + rowStep itemsAway))

/-- The index at which the loop of `siblingItem` starts (lines 353-375), for a
valid current row `cur`; `draw` is the value of `qrand()`. -/
def startIndex (px : TreeProxyModel) (rows : List (Option TreeModelItem)) (cur : Nat)
    (draw : Nat) (itemsAway : Int) : Option Nat :=
  let idx1 : Option Nat :=
    if px.m_shuffled then index rows ((draw % rows.length : Nat) : Int)
    else if px.m_repeatMode != RepeatMode.RepeatOne then index rows ((cur : Int) + rowStep itemsAway)
    else some cur
  if idx1.isNone && px.m_repeatMode == RepeatMode.RepeatAll then
    if itemsAway > 0 then index rows 0
    else index rows ((rows.length : Int) - 1)
  else idx1

/-- `TreeProxyModel::siblingItem( itemsAway, readOnly )`: the result returned
and the view afterwards.  Each iteration of the loop moves the row by one in a
fixed direction, so `rows.length + 1` iterations exhaust it. -/
def siblingItem (px : TreeProxyModel) (v : PlaylistView) (draw : Nat) (itemsAway : Int)
    (readOnly : Bool) : Option Result × PlaylistView :=
  match currentIndex v with
  | none => (none, v)
  | some cur =>
    match seek v.rows itemsAway (v.rows.length + 1) (startIndex px v.rows cur draw itemsAway) with
    | some (r, res) => (some res, if readOnly then v else { v with current := some r })
    | none => (none, if readOnly then v else { v with current := none })

/-- `TreeProxyModel::hasNextItem`. -/
def hasNextItem (px : TreeProxyModel) (v : PlaylistView) (draw : Nat) : Bool :=
  !((siblingItem px v draw 1 true).1.isNone)

/-- `TreeProxyModel::currentItem`. -/
def currentItem (v : PlaylistView) : Option Result :=
  match (currentIndex v).bind (itemFromIndex v.rows) with
  | some item =>
    match item.result with
    | some res => if res.isOnline then some res else none
    | none => none
  | none => none

/-! ## Notions used to state the properties -/

/-- The result of proxy row `r` when that row has an item whose result exists
and is online (the test of line 381), `none` otherwise. -/
def onlineResult (rows : List (Option TreeModelItem)) (r : Nat) : Option Result :=
  match itemFromIndex rows r with
  | some item =>
    match item.result with
    | some res => if res.isOnline then some res else none
    | none => none
  | none => none

/-- Two successive evaluations: `filterAcceptsRow` on row `i`, then, in the
state that call leaves, on row `j`; the verdict on `i` and the verdict on `j`. -/
def acceptTwo (px : TreeProxyModel) (m : TreeModel) (sourceParent : ModelIndex) (i j : Nat) :
    Except Fault (Bool × Bool) :=
  match filterAcceptsRow px m i sourceParent with
  | .error e => .error e
  | .ok (vi, px1) =>
    match filterAcceptsRow px1 m j sourceParent with
    | .error e => .error e
    | .ok (vj, _) => .ok (vi, vj)

/-- The cached result at which the cache loop stops: the most recently cached
result under the parent that has the track of `r` and either the album position
of `r` or position 0. -/
def firstCached (px : TreeProxyModel) (parent : ModelIndex) (r : Result) : Option Result :=
  ((cacheValues px.m_cache parent).filterMap id).find?
    (fun c => decide (c.track = r.track ∧ (c.albumpos = r.albumpos ∨ c.albumpos = 0)))

/-- The online/local duplicate-preference rule in the words of the
specification: some sibling row other than `sourceRow`, with the same name and a
compatible album position (equal, or either one 0), is online while the result
`r` of the row is offline, or has a local source while `r` has a remote one. -/
def PreferredSibling (rows : List (Option TreeModelItem)) (sourceRow : Nat)
    (item : TreeModelItem) (r : Result) : Prop :=
  ∃ i ti tr, i ≠ sourceRow ∧ rows.get? i = some (some ti) ∧ ti.result = some tr ∧
    ti.name = item.name ∧
    (tr.albumpos = r.albumpos ∨ tr.albumpos = 0 ∨ r.albumpos = 0) ∧
    ((r.isOnline = false ∧ tr.isOnline = true) ∨
     (sourceIsLocal r = .ok false ∧ sourceIsLocal tr = .ok true))

/-- Every row is a node with a result whose collection and source exist. -/
def RowsResolved (rows : List (Option TreeModelItem)) : Prop :=
  ∀ t ∈ rows, ∃ ti tr l, t = some ti ∧ ti.result = some tr ∧ sourceIsLocal tr = .ok l

/-- Substring matching in the words of the specification: every term of the
filter text occurs, compared case-insensitively, in at least one of the name,
the album name and the artist name of the item. -/
def TermsOccur (filter : String) (item : TreeModelItem) : Prop :=
  ∀ s ∈ splitSkipEmpty filter,
    containsCI item.name s = true ∨ containsCI item.albumName s = true ∨
      containsCI item.artistName s = true

/-- The row's own result is the first matching cached result of its parent:
the case in which the cache loop of lines 210-217 returns true. -/
def OwnResultCached (px : TreeProxyModel) (m : TreeModel) (parent : ModelIndex)
    (item : TreeModelItem) : Prop :=
  m.mode = ModelMode.DatabaseMode ∧
    ∃ r c, item.result = some r ∧ firstCached px parent r = some c ∧ c.ptr = r.ptr

/-- Splitting on whitespace in the words of the specification: the maximal
runs of characters that are not whitespace (space, tab, carriage return, line
feed). -/
def splitWhitespace (s : String) : List String :=
  ((s.data.splitOnP Char.isWhitespace).filter (fun w => !w.isEmpty)).map String.mk

/-- The album commands the loop of `onFilterArtists` enqueues: one for each
artist that has rows, in the order of the artists, with consecutive handles
from `start`. -/
def albumCommands (m : TreeModel) (filter : String) : Nat → List Artist → List PendingCommand
  | _, [] => []
  | start, artist :: rest =>
    if m.artistRowCount artist != 0 then
      { handle := start, cmd := DatabaseCommand.AllAlbums artist filter, connected := true } ::
        albumCommands m filter (start + 1) rest
    else albumCommands m filter start rest

/-- The signals one call of `filterFinished` emits under the filter text `p`. -/
def finishedSignals (p : String) : List Signal :=
  [Signal.filterChanged p, Signal.trackCountChanged, Signal.filteringFinished]

/-! ## Sample data -/

/-- A platform whose collation compares sort names as strings and whose frame
stores `p1` below `p2`. -/
def samplePlatform : Platform :=
  { sortname := fun s => s,
    localeAwareCompare := fun a b => if a < b then -1 else if a = b then 0 else 1,
    addr_p1 := 64, addr_p2 := 72 }

/-- A collection of a local source. -/
def localCollection : Collection := { source := some { isLocal := true } }

/-- A collection of a remote source. -/
def remoteCollection : Collection := { source := some { isLocal := false } }

/-- Two track nodes for the same track ("Help", position 2), with distinct
result instances, both online, both from a local source. -/
def twinA : TreeModelItem :=
  { ptr := 100, artist := none, album := none,
    result := some { ptr := 1000, track := "Help", albumpos := 2, isOnline := true,
                     collection := some localCollection },
    query := none, name := "Help", albumName := "Help!", artistName := "The Beatles" }

/-- The second node of the pair. -/
def twinB : TreeModelItem :=
  { ptr := 200, artist := none, album := none,
    result := some { ptr := 2000, track := "Help", albumpos := 2, isOnline := true,
                     collection := some localCollection },
    query := none, name := "Help", albumName := "Help!", artistName := "The Beatles" }

/-- A track node named "Zebra" at album position 1. -/
def trackZebra : TreeModelItem :=
  { ptr := 300, artist := none, album := none,
    result := some { ptr := 3000, track := "Zebra", albumpos := 1, isOnline := true,
                     collection := some localCollection },
    query := none, name := "Zebra", albumName := "Animals", artistName := "Zoo" }

/-- A track node named "Aardvark" at album position 5. -/
def trackAardvark : TreeModelItem :=
  { ptr := 400, artist := none, album := none,
    result := some { ptr := 4000, track := "Aardvark", albumpos := 5, isOnline := true,
                     collection := some localCollection },
    query := none, name := "Aardvark", albumName := "Animals", artistName := "Zoo" }

/-- Track node "A", online. -/
def trackA : TreeModelItem :=
  { ptr := 10, artist := none, album := none,
    result := some { ptr := 11, track := "A", albumpos := 1, isOnline := true,
                     collection := some localCollection },
    query := none, name := "A", albumName := "", artistName := "" }

/-- Track node "B", offline. -/
def trackB : TreeModelItem :=
  { ptr := 20, artist := none, album := none,
    result := some { ptr := 21, track := "B", albumpos := 2, isOnline := false,
                     collection := some localCollection },
    query := none, name := "B", albumName := "", artistName := "" }

/-- Track node "C", online. -/
def trackC : TreeModelItem :=
  { ptr := 30, artist := none, album := none,
    result := some { ptr := 31, track := "C", albumpos := 3, isOnline := true,
                     collection := some localCollection },
    query := none, name := "C", albumName := "", artistName := "" }

/-- The siblings A (online), B (offline), C (online). -/
def rowsABC : List (Option TreeModelItem) := [some trackA, some trackB, some trackC]

/-- A proxy with empty filter state, the given repeat mode and shuffle off. -/
def proxyWith (mode : RepeatMode) : TreeProxyModel :=
  { m_filter := "", m_artistsFilter := [], m_albumsFilter := [], m_cache := [],
    m_artistsFilterCmd := none, m_repeatMode := mode, m_shuffled := false }

/-- A twin of `twinA` that is offline (same track, position and source). -/
def twinOffline : TreeModelItem :=
  { ptr := 500, artist := none, album := none,
    result := some { ptr := 5000, track := "Help", albumpos := 2, isOnline := false,
                     collection := some localCollection },
    query := none, name := "Help", albumName := "Help!", artistName := "The Beatles" }

/-- A source model in `DatabaseMode` whose rows, under every parent, are the given ones. -/
def databaseModel (rows : List (Option TreeModelItem)) : TreeModel :=
  { mode := ModelMode.DatabaseMode, children := fun _ => rows, artistRowCount := fun _ => 0 }

/-- A proxy with an empty filter whose cache holds, for parent 0, the result of `twinA`. -/
def proxyCachedTwinA : TreeProxyModel :=
  { m_filter := "", m_artistsFilter := [], m_albumsFilter := [],
    m_cache := [(0, twinA.result)],
    m_artistsFilterCmd := none, m_repeatMode := RepeatMode.NoRepeat, m_shuffled := false }

/-- An artist node "The Beatles". -/
def artistBeatles : TreeModelItem :=
  { ptr := 600, artist := some { ptr := 6000, name := "The Beatles", sortname := "beatles" },
    album := none, result := none, query := none,
    name := "The Beatles", albumName := "", artistName := "" }

/-- A proxy with filter text "beat" whose artist resolution is still pending:
the artist-match set and the album-match set are empty. -/
def proxyBeat : TreeProxyModel :=
  { m_filter := "beat", m_artistsFilter := [], m_albumsFilter := [], m_cache := [],
    m_artistsFilterCmd := some 0, m_repeatMode := RepeatMode.NoRepeat, m_shuffled := false }

/-- An artist matching the pattern "abc". -/
def artistAbc : Artist := { ptr := 7000, name := "abc band", sortname := "abc band" }

/-- A run in which the artist request for "abc" (handle 0) is still pending when
the filter is set to "xyz": rows are inserted under an artist node while "abc"
is the filter, the album request this starts (handle 1) completes, then
`setFilter( "xyz" )` is called, and at last the request for "abc" completes. -/
def staleRun : List Event :=
  [Event.setFilter "abc", Event.rowsInserted artistBeatles, Event.albums 1 [],
   Event.setFilter "xyz", Event.artists 0 [artistAbc]]

/-- A track node "Help" that has a query but no result. -/
def queryHelp : TreeModelItem :=
  { ptr := 700, artist := none, album := none, result := none,
    query := some { ptr := 7001, track := "Help", albumpos := 2 },
    name := "Help", albumName := "", artistName := "" }

/-- A twin of `twinA` whose result has album position 0 (same track, another
instance, online, local source). -/
def twinZero : TreeModelItem :=
  { ptr := 800, artist := none, album := none,
    result := some { ptr := 8000, track := "Help", albumpos := 0, isOnline := true,
                     collection := some localCollection },
    query := none, name := "Help", albumName := "Help!", artistName := "The Beatles" }

/-- A proxy whose filter text is "help", a tab character, "beatles". -/
def proxyTab : TreeProxyModel :=
  { m_filter := "help\tbeatles", m_artistsFilter := [], m_albumsFilter := [], m_cache := [],
    m_artistsFilterCmd := none, m_repeatMode := RepeatMode.NoRepeat, m_shuffled := false }

/-- A proxy whose filter text is "help beatles". -/
def proxyHelpBeatles : TreeProxyModel :=
  { m_filter := "help beatles", m_artistsFilter := [], m_albumsFilter := [], m_cache := [],
    m_artistsFilterCmd := none, m_repeatMode := RepeatMode.NoRepeat, m_shuffled := false }

/-- A source model in which every artist has loaded rows. -/
def loadedModel : TreeModel :=
  { mode := ModelMode.DatabaseMode, children := fun _ => [], artistRowCount := fun _ => 1 }

/-- A second artist matching the pattern "abc". -/
def artistAbcd : Artist := { ptr := 7100, name := "abcd trio", sortname := "abcd trio" }

end Tomahawk

namespace Tomahawk

/-! ## Properties of the ordering engine -/

/-- The position `lessThan` computes for a node is the effective album position
of the specification. -/
theorem albumposOf_eq_effpos (p : TreeModelItem) : albumposOf p = effpos p := by
  unfold albumposOf effpos
  cases hq : p.query <;> cases hr : p.result <;> simp
  all_goals split <;> simp_all

/-- Between two present nodes with different positions, `lessThan` compares the positions. -/
theorem lessThan_of_albumpos_ne (pf : Platform) (a b : TreeModelItem)
    (h : albumposOf a ≠ albumposOf b) :
    lessThan pf (some a) (some b) = decide (albumposOf a < albumposOf b) := by
  simp [lessThan, h]

/-- Between two present nodes with the same position and the same sort key,
`lessThan` returns the comparison of the addresses of its own two locals, whatever the nodes. -/
theorem lessThan_of_tie (pf : Platform) (a b : TreeModelItem)
    (hpos : albumposOf a = albumposOf b)
    (htext : textForItem pf (some a) = textForItem pf (some b)) :
    lessThan pf (some a) (some b) = decide (pf.addr_p1 < pf.addr_p2) := by
  simp [lessThan, hpos, htext]

/-- C2 (evaluation at the failing input): for the two distinct nodes `twinA`
and `twinB`, which have the same album position and the same sort key, and for
every platform, `lessThan` either holds of `twinA` against itself, or holds in
neither direction between `twinA` and `twinB`; so it is not a strict total
order on these siblings. -/
theorem lessThan_twins_not_strict_total (pf : Platform) :
    twinA.ptr ≠ twinB.ptr ∧
    (lessThan pf (some twinA) (some twinA) = true ∨
      (lessThan pf (some twinA) (some twinB) = false ∧
       lessThan pf (some twinB) (some twinA) = false)) := by
  refine ⟨by decide, ?_⟩
  have hAA := lessThan_of_tie pf twinA twinA rfl rfl
  have hAB := lessThan_of_tie pf twinA twinB rfl rfl
  have hBA := lessThan_of_tie pf twinB twinA rfl rfl
  rw [hAA, hAB, hBA]
  by_cases h : pf.addr_p1 < pf.addr_p2 <;> simp [h]

/-- C9: for two present nodes whose effective album positions differ,
`lessThan` holds exactly when the effective position of the left node is
smaller than that of the right node, whatever their sort keys and the platform. -/
theorem lessThan_iff_effpos_lt (pf : Platform) (a b : TreeModelItem)
    (h : effpos a ≠ effpos b) :
    lessThan pf (some a) (some b) = true ↔ effpos a < effpos b := by
  have h' : albumposOf a ≠ albumposOf b := by
    rw [albumposOf_eq_effpos, albumposOf_eq_effpos]; exact h
  rw [lessThan_of_albumpos_ne pf a b h', albumposOf_eq_effpos, albumposOf_eq_effpos]
  simp

/-- Instance of C9: "Zebra" at position 1 sorts before "Aardvark" at position 5,
against the order of their sort keys. -/
theorem lessThan_iff_effpos_lt_witness :
    effpos trackZebra ≠ effpos trackAardvark ∧
    (lessThan samplePlatform (some trackZebra) (some trackAardvark) = true ↔
      effpos trackZebra < effpos trackAardvark) :=
  ⟨by decide, lessThan_iff_effpos_lt samplePlatform trackZebra trackAardvark (by decide)⟩

/-! ## Structural reset -/

/-- C8: `onModelReset` leaves the artist-match set, the album-match set and the
per-parent cache empty, and leaves the filter text, the pending artist-command
handle, the repeat mode and the shuffle flag as they were. -/
theorem onModelReset_clears_caches_keeps_filter (px : TreeProxyModel) :
    (onModelReset px).m_artistsFilter = [] ∧
    (onModelReset px).m_albumsFilter = [] ∧
    (onModelReset px).m_cache = [] ∧
    (onModelReset px).m_filter = px.m_filter ∧
    (onModelReset px).m_artistsFilterCmd = px.m_artistsFilterCmd ∧
    (onModelReset px).m_repeatMode = px.m_repeatMode ∧
    (onModelReset px).m_shuffled = px.m_shuffled := by
  simp [onModelReset]

/-! ## Navigation engine: the search loop -/

/-- A row outside the list holds no online result. -/
theorem onlineResult_eq_none_of_length_le (rows : List (Option TreeModelItem)) (r : Nat)
    (h : rows.length ≤ r) : onlineResult rows r = none := by
  have hget : rows[r]? = none := List.getElem?_eq_none_iff.mpr h
  simp [onlineResult, itemFromIndex, hget]

/-- A row holding an online result exists. -/
theorem lt_length_of_onlineResult (rows : List (Option TreeModelItem)) (r : Nat) (res : Result)
    (h : onlineResult rows r = some res) : r < rows.length := by
  by_contra hlt
  rw [onlineResult_eq_none_of_length_le rows r (by omega)] at h
  cases h

/-- One iteration of the search loop. -/
theorem seek_succ (rows : List (Option TreeModelItem)) (itemsAway : Int) (fuel r : Nat) :
    seek rows itemsAway (fuel + 1) (some r) =
      match onlineResult rows r with
      | some res => some (r, res)
      | none => seek rows itemsAway fuel (index rows ((r : Int) + rowStep itemsAway)) := by
  simp only [seek, onlineResult]
  cases h1 : itemFromIndex rows r with
  | none => simp
  | some item =>
    cases h2 : item.result with
    | none => simp [h2]
    | some res => cases h3 : res.isOnline <;> simp [h2, h3]

/-- The loop ends at once on an invalid index. -/
theorem seek_none (rows : List (Option TreeModelItem)) (itemsAway : Int) (fuel : Nat) :
    seek rows itemsAway fuel none = none := by
  cases fuel <;> rfl

/-- The index one row further. -/
theorem index_succ (rows : List (Option TreeModelItem)) (r : Nat) :
    index rows ((r : Int) + 1) = if r + 1 < rows.length then some (r + 1) else none := by
  unfold index
  by_cases h : r + 1 < rows.length
  · have h1 : (0 : Int) ≤ (r : Int) + 1 ∧ (r : Int) + 1 < (rows.length : Int) := by omega
    rw [if_pos h1, if_pos h]
    congr 1
  · have h1 : ¬ ((0 : Int) ≤ (r : Int) + 1 ∧ (r : Int) + 1 < (rows.length : Int)) := by omega
    rw [if_neg h1, if_neg h]

/-- The index one row back. -/
theorem index_pred (rows : List (Option TreeModelItem)) (r : Nat) :
    index rows ((r : Int) + -1) =
      if 0 < r ∧ r - 1 < rows.length then some (r - 1) else none := by
  unfold index
  by_cases h : 0 < r ∧ r - 1 < rows.length
  · have h1 : (0 : Int) ≤ (r : Int) + -1 ∧ (r : Int) + -1 < (rows.length : Int) := by omega
    rw [if_pos h1, if_pos h]
    congr 1
    omega
  · have h1 : ¬ ((0 : Int) ≤ (r : Int) + -1 ∧ (r : Int) + -1 < (rows.length : Int)) := by omega
    rw [if_neg h1, if_neg h]

/-- The index of an existing row. -/
theorem index_of_lt (rows : List (Option TreeModelItem)) (r : Nat) (h : r < rows.length) :
    index rows (r : Int) = some r := by
  unfold index
  have h1 : (0 : Int) ≤ (r : Int) ∧ (r : Int) < (rows.length : Int) := by omega
  rw [if_pos h1]
  congr 1

/-- The index of a row that does not exist is invalid. -/
theorem index_of_not_lt (rows : List (Option TreeModelItem)) (r : Nat) (h : ¬ r < rows.length) :
    index rows (r : Int) = none := by
  unfold index
  have h1 : ¬ ((0 : Int) ≤ (r : Int) ∧ (r : Int) < (rows.length : Int)) := by omega
  rw [if_neg h1]

/-- Forward search: with enough iterations the loop started at row `r` stops at
the first row from `r` on that holds an online result. -/
theorem seek_forward_found (rows : List (Option TreeModelItem)) (itemsAway : Int)
    (hdir : itemsAway > 0) (j : Nat) (res : Result) (hj : onlineResult rows j = some res) :
    ∀ (d r fuel : Nat), r + d = j → d < fuel →
      (∀ k, r ≤ k → k < j → onlineResult rows k = none) →
      seek rows itemsAway fuel (some r) = some (j, res) := by
  intro d
  induction d with
  | zero =>
    intro r fuel hr hfuel _
    obtain ⟨f, rfl⟩ : ∃ f, fuel = f + 1 := ⟨fuel - 1, by omega⟩
    have : r = j := by omega
    subst this
    rw [seek_succ, hj]
  | succ d ih =>
    intro r fuel hr hfuel hskip
    obtain ⟨f, rfl⟩ : ∃ f, fuel = f + 1 := ⟨fuel - 1, by omega⟩
    have hjlen := lt_length_of_onlineResult rows j res hj
    rw [seek_succ, hskip r (le_refl r) (by omega)]
    simp only [rowStep, if_pos hdir]
    rw [index_succ, if_pos (by omega)]
    exact ih (r + 1) f (by omega) (by omega) (fun k hk1 hk2 => hskip k (by omega) hk2)

/-- Forward search: when no row from `r` on holds an online result the loop
finds nothing. -/
theorem seek_forward_exhausted (rows : List (Option TreeModelItem)) (itemsAway : Int)
    (hdir : itemsAway > 0) :
    ∀ (fuel r : Nat), (∀ k, r ≤ k → onlineResult rows k = none) →
      seek rows itemsAway fuel (some r) = none := by
  intro fuel
  induction fuel with
  | zero => intro r _; rfl
  | succ f ih =>
    intro r hnone
    rw [seek_succ, hnone r (le_refl r)]
    simp only [rowStep, if_pos hdir]
    rw [index_succ]
    split
    · exact ih (r + 1) (fun k hk => hnone k (by omega))
    · exact seek_none rows itemsAway f

/-- Backward search: with enough iterations the loop started at row `r` stops
at the last row up to `r` that holds an online result. -/
theorem seek_backward_found (rows : List (Option TreeModelItem)) (itemsAway : Int)
    (hdir : ¬ itemsAway > 0) (j : Nat) (res : Result) (hj : onlineResult rows j = some res) :
    ∀ (d r fuel : Nat), j + d = r → d < fuel → r < rows.length →
      (∀ k, j < k → k ≤ r → onlineResult rows k = none) →
      seek rows itemsAway fuel (some r) = some (j, res) := by
  intro d
  induction d with
  | zero =>
    intro r fuel hr hfuel _ _
    obtain ⟨f, rfl⟩ : ∃ f, fuel = f + 1 := ⟨fuel - 1, by omega⟩
    have : r = j := by omega
    subst this
    rw [seek_succ, hj]
  | succ d ih =>
    intro r fuel hr hfuel hlen hskip
    obtain ⟨f, rfl⟩ : ∃ f, fuel = f + 1 := ⟨fuel - 1, by omega⟩
    rw [seek_succ, hskip r (by omega) (le_refl r)]
    simp only [rowStep, if_neg hdir]
    rw [index_pred, if_pos ⟨by omega, by omega⟩]
    exact ih (r - 1) f (by omega) (by omega) (by omega)
      (fun k hk1 hk2 => hskip k hk1 (by omega))

/-- Backward search: when no row up to `r` holds an online result the loop
finds nothing. -/
theorem seek_backward_exhausted (rows : List (Option TreeModelItem)) (itemsAway : Int)
    (hdir : ¬ itemsAway > 0) :
    ∀ (fuel r : Nat), (∀ k, k ≤ r → onlineResult rows k = none) →
      seek rows itemsAway fuel (some r) = none := by
  intro fuel
  induction fuel with
  | zero => intro r _; rfl
  | succ f ih =>
    intro r hnone
    rw [seek_succ, hnone r (le_refl r)]
    simp only [rowStep, if_neg hdir]
    rw [index_pred]
    split
    · exact ih (r - 1) (fun k hk => hnone k (by omega))
    · exact seek_none rows itemsAway f

/-! ## Navigation engine: `siblingItem` and `hasNextItem` -/

/-- The current index is the current row when that row exists. -/
theorem currentIndex_of_lt (v : PlaylistView) (cur : Nat) (hc : v.current = some cur)
    (hlt : cur < v.rows.length) : currentIndex v = some cur := by
  simp only [currentIndex, hc]
  exact index_of_lt v.rows cur hlt

/-- A valid current index is the stored current row, and that row exists. -/
theorem current_of_currentIndex (v : PlaylistView) (cur : Nat) (h : currentIndex v = some cur) :
    v.current = some cur ∧ cur < v.rows.length := by
  unfold currentIndex at h
  cases hc : v.current with
  | none => rw [hc] at h; cases h
  | some r =>
    rw [hc] at h
    simp only at h
    by_cases hlt : r < v.rows.length
    · rw [index_of_lt v.rows r hlt] at h
      cases h
      exact ⟨rfl, hlt⟩
    · rw [index_of_not_lt v.rows r hlt] at h
      cases h

/-- The index of the last row of a non-empty list. -/
theorem index_last (rows : List (Option TreeModelItem)) (h : 0 < rows.length) :
    index rows ((rows.length : Int) - 1) = some (rows.length - 1) := by
  have h1 : ((rows.length : Int) - 1) = ((rows.length - 1 : Nat) : Int) := by omega
  rw [h1]
  exact index_of_lt rows (rows.length - 1) (by omega)

/-- C5: with repeat mode All and shuffle off, `siblingItem` forward from the
last sibling returns the result of the lowest row that holds an online result,
and `siblingItem` backward from the first sibling returns the result of the
highest row that holds an online result (for both values of `readOnly`). -/
theorem siblingItem_repeatAll_wraps (px : TreeProxyModel) (v : PlaylistView) (draw : Nat)
    (itemsAway : Int) (readOnly : Bool) (j : Nat) (res : Result)
    (hs : px.m_shuffled = false) (hr : px.m_repeatMode = RepeatMode.RepeatAll)
    (hj : onlineResult v.rows j = some res) :
    (itemsAway > 0 → v.current = some (v.rows.length - 1) →
      (∀ k, k < j → onlineResult v.rows k = none) →
      (siblingItem px v draw itemsAway readOnly).1 = some res) ∧
    (¬ itemsAway > 0 → v.current = some 0 →
      (∀ k, j < k → onlineResult v.rows k = none) →
      (siblingItem px v draw itemsAway readOnly).1 = some res) := by
  have hjlen := lt_length_of_onlineResult v.rows j res hj
  constructor
  · intro hdir hcur hlow
    have hci := currentIndex_of_lt v (v.rows.length - 1) hcur (by omega)
    have hstart : startIndex px v.rows (v.rows.length - 1) draw itemsAway = some 0 := by
      have hnext : index v.rows (((v.rows.length - 1 : Nat) : Int) + 1) = none := by
        rw [index_succ, if_neg (by omega)]
      have h0 : index v.rows 0 = some 0 := index_of_lt v.rows 0 (by omega)
      simp [startIndex, hs, hr, rowStep, hdir, hnext, h0]
    have hseek := seek_forward_found v.rows itemsAway hdir j res hj j 0 (v.rows.length + 1)
      (by omega) (by omega) (fun k _ hk => hlow k hk)
    simp [siblingItem, hci, hstart, hseek]
  · intro hdir hcur hhigh
    have hci := currentIndex_of_lt v 0 hcur (by omega)
    have hstart : startIndex px v.rows 0 draw itemsAway = some (v.rows.length - 1) := by
      have hprev : index v.rows (((0 : Nat) : Int) + -1) = none := by
        rw [index_pred, if_neg (by omega)]
      have hlast := index_last v.rows (by omega)
      simp only [Nat.cast_zero, zero_add] at hprev
      simp [startIndex, hs, hr, rowStep, hdir, hprev, hlast]
    have hseek := seek_backward_found v.rows itemsAway hdir j res hj
      (v.rows.length - 1 - j) (v.rows.length - 1) (v.rows.length + 1)
      (by omega) (by omega) (by omega) (fun k hk _ => hhigh k hk)
    simp [siblingItem, hci, hstart, hseek]

/-- Instance of C5 on the siblings A (online), B (offline), C (online) with
repeat mode All: forward from C yields A, and backward from A yields C. -/
theorem siblingItem_repeatAll_wraps_witness :
    (siblingItem (proxyWith RepeatMode.RepeatAll) { rows := rowsABC, current := some 2 } 0 1
      false).1 = trackA.result ∧
    (siblingItem (proxyWith RepeatMode.RepeatAll) { rows := rowsABC, current := some 0 } 0 (-1)
      false).1 = trackC.result :=
  ⟨(siblingItem_repeatAll_wraps (proxyWith RepeatMode.RepeatAll)
      { rows := rowsABC, current := some 2 } 0 1 false 0
      { ptr := 11, track := "A", albumpos := 1, isOnline := true,
        collection := some localCollection }
      rfl rfl rfl).1 (by decide) rfl (fun k hk => absurd hk (Nat.not_lt_zero k)),
   (siblingItem_repeatAll_wraps (proxyWith RepeatMode.RepeatAll)
      { rows := rowsABC, current := some 0 } 0 (-1) false 2
      { ptr := 31, track := "C", albumpos := 3, isOnline := true,
        collection := some localCollection }
      rfl rfl rfl).2 (by decide) rfl
      (fun k hk => onlineResult_eq_none_of_length_le rowsABC k hk)⟩

/-- The current item is the online result of the current row. -/
theorem currentItem_eq_some (v : PlaylistView) (res : Result) (h : currentItem v = some res) :
    ∃ cur, currentIndex v = some cur ∧ onlineResult v.rows cur = some res := by
  unfold currentItem at h
  cases hci : currentIndex v with
  | none => simp [hci] at h
  | some cur =>
    refine ⟨cur, rfl, ?_⟩
    simp only [hci, Option.some_bind] at h
    simpa [onlineResult] using h

/-- C6: with repeat mode One and shuffle off, for every direction and both
values of `readOnly`, if the current item has an online result then
`siblingItem` returns exactly that result and leaves the view, hence the
current index, as it was. -/
theorem siblingItem_repeatOne_stays (px : TreeProxyModel) (v : PlaylistView) (draw : Nat)
    (itemsAway : Int) (readOnly : Bool) (res : Result)
    (hs : px.m_shuffled = false) (hr : px.m_repeatMode = RepeatMode.RepeatOne)
    (hcur : currentItem v = some res) :
    siblingItem px v draw itemsAway readOnly = (some res, v) ∧
    currentIndex (siblingItem px v draw itemsAway readOnly).2 = currentIndex v := by
  obtain ⟨cur, hci, hon⟩ := currentItem_eq_some v res hcur
  obtain ⟨hc, _⟩ := current_of_currentIndex v cur hci
  have hstart : startIndex px v.rows cur draw itemsAway = some cur := by
    simp [startIndex, hs, hr]
  have hseek : seek v.rows itemsAway (v.rows.length + 1) (some cur) = some (cur, res) := by
    rw [seek_succ, hon]
  have hv : ({ v with current := some cur } : PlaylistView) = v := by
    cases v
    simp_all
  have hres : siblingItem px v draw itemsAway readOnly = (some res, v) := by
    cases readOnly <;> simp [siblingItem, hci, hstart, hseek, hv]
  exact ⟨hres, by rw [hres]⟩

/-- Instance of C6: on the siblings A, B, C with current row C and repeat mode
One, a backward step that may move the current index returns C and stays at C. -/
theorem siblingItem_repeatOne_stays_witness :
    siblingItem (proxyWith RepeatMode.RepeatOne) { rows := rowsABC, current := some 2 } 0 (-1)
        false = (trackC.result, { rows := rowsABC, current := some 2 }) ∧
    currentIndex (siblingItem (proxyWith RepeatMode.RepeatOne)
        { rows := rowsABC, current := some 2 } 0 (-1) false).2 =
      currentIndex { rows := rowsABC, current := some 2 } :=
  siblingItem_repeatOne_stays (proxyWith RepeatMode.RepeatOne)
    { rows := rowsABC, current := some 2 } 0 (-1) false
    { ptr := 31, track := "C", albumpos := 3, isOnline := true,
      collection := some localCollection }
    rfl rfl (by decide)

/-- C7: for every proxy state, view and draw, `hasNextItem` is true exactly when
the read-only forward probe `siblingItem( 1, true )` returns a result; and with
repeat mode None and shuffle off it is false whenever no sibling after the
current row holds an online result. -/
theorem hasNextItem_probe_and_last_online (px : TreeProxyModel) (v : PlaylistView)
    (draw : Nat) :
    (hasNextItem px v draw = true ↔ (siblingItem px v draw 1 true).1 ≠ none) ∧
    (px.m_shuffled = false → px.m_repeatMode = RepeatMode.NoRepeat →
      (∀ cur k, v.current = some cur → cur < k → onlineResult v.rows k = none) →
      hasNextItem px v draw = false) := by
  constructor
  · cases hp : (siblingItem px v draw 1 true).1 <;> simp [hasNextItem, hp]
  · intro hs hr hlast
    have hprobe : (siblingItem px v draw 1 true).1 = none := by
      unfold siblingItem
      cases hci : currentIndex v with
      | none => rfl
      | some cur =>
        obtain ⟨hc, hlt⟩ := current_of_currentIndex v cur hci
        have hstart : startIndex px v.rows cur draw 1 =
            if cur + 1 < v.rows.length then some (cur + 1) else none := by
          have hnext := index_succ v.rows cur
          simp [startIndex, hs, hr, rowStep, hnext]
        have hseek : seek v.rows 1 (v.rows.length + 1)
            (startIndex px v.rows cur draw 1) = none := by
          rw [hstart]
          split
          · exact seek_forward_exhausted v.rows 1 (by decide) (v.rows.length + 1) (cur + 1)
              (fun k hk => hlast cur k hc (by omega))
          · exact seek_none v.rows 1 (v.rows.length + 1)
        simp only [hseek]
    simp [hasNextItem, hprobe]

/-- Instance of C7: on the siblings A (online), B (offline), C (online) with
repeat mode None, there is a next item from the current row A, because the
read-only forward probe returns a result, and there is none from the current
row C. -/
theorem hasNextItem_probe_and_last_online_witness :
    hasNextItem (proxyWith RepeatMode.NoRepeat) { rows := rowsABC, current := some 0 } 0 = true ∧
    hasNextItem (proxyWith RepeatMode.NoRepeat) { rows := rowsABC, current := some 2 } 0 = false :=
  ⟨(hasNextItem_probe_and_last_online (proxyWith RepeatMode.NoRepeat)
      { rows := rowsABC, current := some 0 } 0).1.mpr (by decide),
   (hasNextItem_probe_and_last_online (proxyWith RepeatMode.NoRepeat)
      { rows := rowsABC, current := some 2 } 0).2 rfl rfl
      (fun cur k hc hk => onlineResult_eq_none_of_length_le rowsABC k (by
        have h2 : cur = 2 := (Option.some.inj hc).symm
        have hlen : rowsABC.length = 3 := rfl
        omega))⟩

/-! ## Row acceptance engine: a pair of duplicates -/

/-- The empty string is empty. -/
theorem isEmpty_empty : ("" : String).isEmpty = true := by decide

/-- With an empty filter text every row passes the filter-matching stage. -/
theorem acceptedByKind_of_empty (px : TreeProxyModel) (item : TreeModelItem)
    (hf : px.m_filter = "") : acceptedByKind px item = true := by
  simp [acceptedByKind, hf, isEmpty_empty]

/-- Verdict on the first of two duplicate rows `a`, `b`, by the cache held for
the parent: with no cached result the sibling `b` decides; with the result of
`b` cached the row is rejected. -/
theorem filterAcceptsRow_pair_first (px : TreeProxyModel) (m : TreeModel) (parent : ModelIndex)
    (a b : TreeModelItem) (ra rb : Result) (la lb : Bool)
    (hmode : m.mode = ModelMode.DatabaseMode)
    (hrows : m.children parent = [some a, some b])
    (hfilter : px.m_filter = "")
    (ha : a.result = some ra) (hb : b.result = some rb)
    (hptr : ra.ptr ≠ rb.ptr) (hname : a.name = b.name) (htrack : ra.track = rb.track)
    (hpos : ra.albumpos = rb.albumpos)
    (hla : sourceIsLocal ra = .ok la) (hlb : sourceIsLocal rb = .ok lb) :
    (cacheValues px.m_cache parent = [] →
      filterAcceptsRow px m 0 parent =
        if (!ra.isOnline && rb.isOnline) || (!la && lb) then .ok (false, px)
        else .ok (true, { px with m_cache := insertMulti px.m_cache parent (some ra) })) ∧
    (cacheValues px.m_cache parent = [some rb] →
      filterAcceptsRow px m 0 parent = .ok (false, px)) := by
  have hacc := acceptedByKind_of_empty px a hfilter
  constructor
  · intro hcache
    cases hoa : ra.isOnline <;> cases hob : rb.isOnline <;> cases la <;> cases lb <;>
      simp [filterAcceptsRow, duplicateCheck, scanCache, scanSiblings, hrows, hmode, ha, hb,
        hname, hpos, hla, hlb, hcache, hacc, hoa, hob]
  · intro hcache
    have hne : ¬ rb.ptr = ra.ptr := fun h => hptr h.symm
    simp [filterAcceptsRow, duplicateCheck, scanCache, hrows, hmode, ha, hcache, htrack,
      hpos, hne]

/-- Verdict on the second of two duplicate rows `a`, `b`, by the cache held for
the parent. -/
theorem filterAcceptsRow_pair_second (px : TreeProxyModel) (m : TreeModel) (parent : ModelIndex)
    (a b : TreeModelItem) (ra rb : Result) (la lb : Bool)
    (hmode : m.mode = ModelMode.DatabaseMode)
    (hrows : m.children parent = [some a, some b])
    (hfilter : px.m_filter = "")
    (ha : a.result = some ra) (hb : b.result = some rb)
    (hptr : ra.ptr ≠ rb.ptr) (hname : a.name = b.name) (htrack : ra.track = rb.track)
    (hpos : ra.albumpos = rb.albumpos)
    (hla : sourceIsLocal ra = .ok la) (hlb : sourceIsLocal rb = .ok lb) :
    (cacheValues px.m_cache parent = [] →
      filterAcceptsRow px m 1 parent =
        if (!rb.isOnline && ra.isOnline) || (!lb && la) then .ok (false, px)
        else .ok (true, { px with m_cache := insertMulti px.m_cache parent (some rb) })) ∧
    (cacheValues px.m_cache parent = [some ra] →
      filterAcceptsRow px m 1 parent = .ok (false, px)) := by
  have hacc := acceptedByKind_of_empty px b hfilter
  constructor
  · intro hcache
    cases hoa : ra.isOnline <;> cases hob : rb.isOnline <;> cases la <;> cases lb <;>
      simp [filterAcceptsRow, duplicateCheck, scanCache, scanSiblings, hrows, hmode, ha, hb,
        hname, hpos, hla, hlb, hcache, hacc, hoa, hob]
  · intro hcache
    simp [filterAcceptsRow, duplicateCheck, scanCache, hrows, hmode, hb, hcache, htrack,
      hpos, hptr]

/-- The cached results of a parent after one more insertion for that parent. -/
theorem cacheValues_insertMulti (cache : List (ModelIndex × Option Result)) (parent : ModelIndex)
    (r : Option Result) :
    cacheValues (insertMulti cache parent r) parent = r :: cacheValues cache parent := by
  simp [cacheValues, insertMulti]

/-- Both evaluation orders on a pair of duplicate rows `a` (row 0) and `b`
(row 1), from an empty cache for the parent and an empty filter.  A row is
rejected by the sibling scan when it is offline and the other online, or remote
and the other local; if the row evaluated first is accepted, the second is
rejected on the cached result. -/
theorem acceptTwo_pair (px : TreeProxyModel) (m : TreeModel) (parent : ModelIndex)
    (a b : TreeModelItem) (ra rb : Result) (la lb : Bool)
    (hmode : m.mode = ModelMode.DatabaseMode)
    (hrows : m.children parent = [some a, some b])
    (hcache : cacheValues px.m_cache parent = [])
    (hfilter : px.m_filter = "")
    (ha : a.result = some ra) (hb : b.result = some rb)
    (hptr : ra.ptr ≠ rb.ptr) (hname : a.name = b.name) (htrack : ra.track = rb.track)
    (hpos : ra.albumpos = rb.albumpos)
    (hla : sourceIsLocal ra = .ok la) (hlb : sourceIsLocal rb = .ok lb) :
    acceptTwo px m parent 0 1 =
      .ok (!((!ra.isOnline && rb.isOnline) || (!la && lb)),
           ((!ra.isOnline && rb.isOnline) || (!la && lb)) &&
             !((!rb.isOnline && ra.isOnline) || (!lb && la))) ∧
    acceptTwo px m parent 1 0 =
      .ok (!((!rb.isOnline && ra.isOnline) || (!lb && la)),
           ((!rb.isOnline && ra.isOnline) || (!lb && la)) &&
             !((!ra.isOnline && rb.isOnline) || (!la && lb))) := by
  have hA := (filterAcceptsRow_pair_first px m parent a b ra rb la lb hmode hrows hfilter ha hb
    hptr hname htrack hpos hla hlb).1 hcache
  have hB := (filterAcceptsRow_pair_second px m parent a b ra rb la lb hmode hrows hfilter ha hb
    hptr hname htrack hpos hla hlb).1 hcache
  have hA2 := (filterAcceptsRow_pair_first
    { px with m_cache := insertMulti px.m_cache parent (some rb) } m parent a b ra rb la lb
    hmode hrows hfilter ha hb hptr hname htrack hpos hla hlb).2
    (by rw [cacheValues_insertMulti, hcache])
  have hB2 := (filterAcceptsRow_pair_second
    { px with m_cache := insertMulti px.m_cache parent (some ra) } m parent a b ra rb la lb
    hmode hrows hfilter ha hb hptr hname htrack hpos hla hlb).2
    (by rw [cacheValues_insertMulti, hcache])
  constructor
  · unfold acceptTwo
    rw [hA]
    by_cases hrejA : ((!ra.isOnline && rb.isOnline) || (!la && lb)) = true
    · rw [if_pos hrejA]
      dsimp only
      rw [hB]
      by_cases hrejB : ((!rb.isOnline && ra.isOnline) || (!lb && la)) = true
      · rw [if_pos hrejB, hrejA, hrejB]; rfl
      · rw [if_neg hrejB, hrejA, Bool.not_eq_true _ |>.mp hrejB]; rfl
    · rw [if_neg hrejA]
      dsimp only
      rw [hB2, Bool.not_eq_true _ |>.mp hrejA]; rfl
  · unfold acceptTwo
    rw [hB]
    by_cases hrejB : ((!rb.isOnline && ra.isOnline) || (!lb && la)) = true
    · rw [if_pos hrejB]
      dsimp only
      rw [hA]
      by_cases hrejA : ((!ra.isOnline && rb.isOnline) || (!la && lb)) = true
      · rw [if_pos hrejA, hrejA, hrejB]; rfl
      · rw [if_neg hrejA, hrejB, Bool.not_eq_true _ |>.mp hrejA]; rfl
    · rw [if_neg hrejB]
      dsimp only
      rw [hA2, Bool.not_eq_true _ |>.mp hrejB]; rfl

/-- C3 (as stated, refuted): the two rows `twinA` and `twinB` carry distinct
result instances of the same track at the same position, both online and both
local.  Evaluated from an empty cache with an empty filter, the order `twinA`,
`twinB` accepts `twinA` and rejects `twinB`, while the order `twinB`, `twinA`
accepts `twinB` and rejects `twinA`: the accepted row is not the same in both orders. -/
theorem duplicate_pair_accepted_row_depends_on_order :
    acceptTwo (proxyWith RepeatMode.NoRepeat) (databaseModel [some twinA, some twinB]) 0 0 1
      = .ok (true, false) ∧
    acceptTwo (proxyWith RepeatMode.NoRepeat) (databaseModel [some twinA, some twinB]) 0 1 0
      = .ok (true, false) :=
  ⟨rfl, rfl⟩

/-- C3 (amended): in `DatabaseMode`, for a parent with exactly the two rows `a`
and `b` that carry distinct result instances for the same name, track and album
position, starting from an empty cache for the parent and an empty filter,
evaluating `a` then `b` and evaluating `b` then `a` give:
when exactly one row is online, and the online one is not remote while the
other is local, the online row is accepted and the other rejected in both
orders; when both have the same online status and exactly one has a local
source, the local-source row is accepted and the other rejected in both orders;
when both have the same online status and the same locality, the row evaluated
first is accepted and the other rejected. -/
theorem duplicate_pair_preference (px : TreeProxyModel) (m : TreeModel) (parent : ModelIndex)
    (a b : TreeModelItem) (ra rb : Result) (la lb : Bool)
    (hmode : m.mode = ModelMode.DatabaseMode)
    (hrows : m.children parent = [some a, some b])
    (hcache : cacheValues px.m_cache parent = [])
    (hfilter : px.m_filter = "")
    (ha : a.result = some ra) (hb : b.result = some rb)
    (hptr : ra.ptr ≠ rb.ptr) (hname : a.name = b.name) (htrack : ra.track = rb.track)
    (hpos : ra.albumpos = rb.albumpos)
    (hla : sourceIsLocal ra = .ok la) (hlb : sourceIsLocal rb = .ok lb) :
    (ra.isOnline = true ∧ rb.isOnline = false ∧ ¬ (la = false ∧ lb = true) →
      acceptTwo px m parent 0 1 = .ok (true, false) ∧
      acceptTwo px m parent 1 0 = .ok (false, true)) ∧
    (ra.isOnline = false ∧ rb.isOnline = true ∧ ¬ (lb = false ∧ la = true) →
      acceptTwo px m parent 0 1 = .ok (false, true) ∧
      acceptTwo px m parent 1 0 = .ok (true, false)) ∧
    (ra.isOnline = rb.isOnline ∧ la = true ∧ lb = false →
      acceptTwo px m parent 0 1 = .ok (true, false) ∧
      acceptTwo px m parent 1 0 = .ok (false, true)) ∧
    (ra.isOnline = rb.isOnline ∧ la = false ∧ lb = true →
      acceptTwo px m parent 0 1 = .ok (false, true) ∧
      acceptTwo px m parent 1 0 = .ok (true, false)) ∧
    (ra.isOnline = rb.isOnline ∧ la = lb →
      acceptTwo px m parent 0 1 = .ok (true, false) ∧
      acceptTwo px m parent 1 0 = .ok (true, false)) := by
  obtain ⟨h01, h10⟩ := acceptTwo_pair px m parent a b ra rb la lb hmode hrows hcache hfilter
    ha hb hptr hname htrack hpos hla hlb
  rw [h01, h10]
  cases ra.isOnline <;> cases rb.isOnline <;> cases la <;> cases lb <;> simp

/-- Instance of C3 (amended): with `twinA` online and `twinOffline` offline, both
from a local source, both orders accept `twinA` and reject `twinOffline`. -/
theorem duplicate_pair_preference_witness :
    acceptTwo (proxyWith RepeatMode.NoRepeat) (databaseModel [some twinA, some twinOffline]) 0 0 1
      = .ok (true, false) ∧
    acceptTwo (proxyWith RepeatMode.NoRepeat) (databaseModel [some twinA, some twinOffline]) 0 1 0
      = .ok (false, true) :=
  (duplicate_pair_preference (proxyWith RepeatMode.NoRepeat)
    (databaseModel [some twinA, some twinOffline]) 0 twinA twinOffline
    { ptr := 1000, track := "Help", albumpos := 2, isOnline := true,
      collection := some localCollection }
    { ptr := 5000, track := "Help", albumpos := 2, isOnline := false,
      collection := some localCollection }
    true true rfl rfl rfl rfl rfl rfl (by decide) rfl rfl rfl rfl rfl).1
    ⟨rfl, rfl, by decide⟩

/-- The case C3 (amended) leaves out: an online result from a remote source
against an offline result from a local source.  Each row is rejected by the
sibling scan, in both orders. -/
theorem duplicate_pair_mixed_rejects_both (px : TreeProxyModel) (m : TreeModel)
    (parent : ModelIndex) (a b : TreeModelItem) (ra rb : Result)
    (hmode : m.mode = ModelMode.DatabaseMode)
    (hrows : m.children parent = [some a, some b])
    (hcache : cacheValues px.m_cache parent = [])
    (hfilter : px.m_filter = "")
    (ha : a.result = some ra) (hb : b.result = some rb)
    (hptr : ra.ptr ≠ rb.ptr) (hname : a.name = b.name) (htrack : ra.track = rb.track)
    (hpos : ra.albumpos = rb.albumpos)
    (hla : sourceIsLocal ra = .ok false) (hlb : sourceIsLocal rb = .ok true)
    (hoa : ra.isOnline = true) (hob : rb.isOnline = false) :
    acceptTwo px m parent 0 1 = .ok (false, false) ∧
    acceptTwo px m parent 1 0 = .ok (false, false) := by
  obtain ⟨h01, h10⟩ := acceptTwo_pair px m parent a b ra rb false true hmode hrows hcache
    hfilter ha hb hptr hname htrack hpos hla hlb
  rw [h01, h10, hoa, hob]
  exact ⟨rfl, rfl⟩

/-! ## Row acceptance engine: the two loops of the duplicate block -/

/-- The cache loop on non-null cached results stops at the first matching one
and returns whether it is the very instance of the row. -/
theorem scanCache_eq (r : Result) :
    ∀ (vals : List (Option Result)), (∀ e ∈ vals, e ≠ none) →
      scanCache r vals = .ok (((vals.filterMap id).find?
        (fun c => decide (c.track = r.track ∧ (c.albumpos = r.albumpos ∨ c.albumpos = 0)))).map
        (fun c => c.ptr == r.ptr)) := by
  intro vals
  induction vals with
  | nil => intro _; rfl
  | cons e rest ih =>
    intro hall
    have hrest : ∀ x ∈ rest, x ≠ none := fun x hx => hall x (List.mem_cons_of_mem e hx)
    cases e with
    | none => exact absurd rfl (hall none (List.mem_cons_self none rest))
    | some c =>
      by_cases hm : c.track = r.track ∧ (c.albumpos = r.albumpos ∨ c.albumpos = 0)
      · simp [scanCache, hm, List.find?]
      · have hm' : (c.track == r.track && (c.albumpos == r.albumpos || c.albumpos == 0)) = false := by
          simpa using hm
        have hd : decide (c.track = r.track ∧ (c.albumpos = r.albumpos ∨ c.albumpos = 0)) = false := by
          simpa using hm
        simp only [scanCache, hm', List.filterMap_cons, id, List.find?, hd]
        exact ih hrest

/-- One iteration of the sibling loop on a row that is resolved. -/
theorem scanSiblings_cons (item : TreeModelItem) (r : Result) (sourceRow i : Nat)
    (ti : TreeModelItem) (tr : Result) (il tl : Bool) (rest : List (Option TreeModelItem))
    (htr : ti.result = some tr)
    (hil : sourceIsLocal r = .ok il) (htl : sourceIsLocal tr = .ok tl) :
    scanSiblings item r sourceRow i (some ti :: rest) =
      if i ≠ sourceRow ∧ ti.name = item.name ∧
          (tr.albumpos = r.albumpos ∨ tr.albumpos = 0 ∨ r.albumpos = 0) ∧
          ((r.isOnline = false ∧ tr.isOnline = true) ∨ (il = false ∧ tl = true))
      then .ok true
      else scanSiblings item r sourceRow (i + 1) rest := by
  rw [scanSiblings]
  by_cases hrow : i = sourceRow
  · have hb : (i == sourceRow) = true := by simpa using hrow
    rw [if_pos hb, if_neg (fun h => h.1 hrow)]
  · have hb : ¬ (i == sourceRow) = true := by simpa using hrow
    rw [if_neg hb]
    by_cases hname : ti.name = item.name
    · have hnb : (ti.name == item.name) = true := by simpa using hname
      rw [if_pos hnb, htr]
      dsimp only
      by_cases hcompat : tr.albumpos = r.albumpos ∨ tr.albumpos = 0 ∨ r.albumpos = 0
      · have hc : (tr.albumpos == r.albumpos || tr.albumpos == 0 || r.albumpos == 0) = true := by
          simpa [or_assoc] using hcompat
        rw [if_pos hc, hil, htl]
        dsimp only
        cases r.isOnline <;> cases tr.isOnline <;> cases il <;> cases tl <;>
          simp [hrow, hname, hcompat]
      · have hc : ¬ (tr.albumpos == r.albumpos || tr.albumpos == 0 || r.albumpos == 0) = true := by
          simpa [or_assoc] using hcompat
        rw [if_neg hc, if_neg (fun h => hcompat h.2.2.1)]
    · have hnb : ¬ (ti.name == item.name) = true := by simpa using hname
      rw [if_neg hnb, if_neg (fun h => hname h.2.1)]

/-- The sibling loop on resolved rows runs without fault and rejects exactly
when some row it visits (row `i + k` for position `k` of the remaining list,
other than `sourceRow`) is a preferred duplicate. -/
theorem scanSiblings_spec (item : TreeModelItem) (r : Result) (sourceRow : Nat) (il : Bool)
    (hil : sourceIsLocal r = .ok il) :
    ∀ (rest : List (Option TreeModelItem)) (i : Nat), RowsResolved rest →
      ∃ b, scanSiblings item r sourceRow i rest = .ok b ∧
        (b = true ↔ ∃ k ti tr, i + k ≠ sourceRow ∧ rest.get? k = some (some ti) ∧
          ti.result = some tr ∧ ti.name = item.name ∧
          (tr.albumpos = r.albumpos ∨ tr.albumpos = 0 ∨ r.albumpos = 0) ∧
          ((r.isOnline = false ∧ tr.isOnline = true) ∨
           (sourceIsLocal r = .ok false ∧ sourceIsLocal tr = .ok true))) := by
  intro rest
  induction rest with
  | nil =>
    intro i _
    refine ⟨false, rfl, ?_⟩
    constructor
    · intro h; cases h
    · rintro ⟨k, ti, tr, _, h, _⟩
      cases h
  | cons t rest ih =>
    intro i hres
    have hrest : RowsResolved rest := fun x hx => hres x (List.mem_cons_of_mem t hx)
    obtain ⟨ti, tr, tl, rfl, htr, htl⟩ := hres (t) (List.mem_cons_self t rest)
    obtain ⟨b, hb, hiff⟩ := ih (i + 1) hrest
    rw [scanSiblings_cons item r sourceRow i ti tr il tl rest htr hil htl]
    by_cases hwin : i ≠ sourceRow ∧ ti.name = item.name ∧
        (tr.albumpos = r.albumpos ∨ tr.albumpos = 0 ∨ r.albumpos = 0) ∧
        ((r.isOnline = false ∧ tr.isOnline = true) ∨ (il = false ∧ tl = true))
    · rw [if_pos hwin]
      refine ⟨true, rfl, ?_⟩
      constructor
      · intro _
        obtain ⟨hne, hname, hcompat, hpref⟩ := hwin
        refine ⟨0, ti, tr, by omega, rfl, htr, hname, hcompat, ?_⟩
        rcases hpref with h | ⟨h1, h2⟩
        · exact Or.inl h
        · exact Or.inr ⟨by rw [hil, h1], by rw [htl, h2]⟩
      · intro _; rfl
    · rw [if_neg hwin]
      refine ⟨b, hb, ?_⟩
      rw [hiff]
      constructor
      · rintro ⟨k, ti', tr', h1, h2, h3⟩
        exact ⟨k + 1, ti', tr', by omega, h2, h3⟩
      · rintro ⟨k, ti', tr', h1, h2, h3, h4, h5, h6⟩
        cases k with
        | zero =>
          exfalso
          have hti : ti = ti' := Option.some.inj (Option.some.inj h2)
          subst hti
          rw [htr] at h3
          have htr' : tr = tr' := Option.some.inj h3
          subst htr'
          apply hwin
          refine ⟨by omega, h4, h5, ?_⟩
          rcases h6 with h | ⟨h61, h62⟩
          · exact Or.inl h
          · rw [hil] at h61
            rw [htl] at h62
            exact Or.inr ⟨Except.ok.inj h61, Except.ok.inj h62⟩
        | succ k => exact ⟨k, ti', tr', by omega, h2, h3, h4, h5, h6⟩

/-- Whenever the cache loop ends without fault, it has stopped at the first
matching non-null cached result, returning whether that is the very instance of
the row, or has found no matching one. -/
theorem scanCache_ok (r : Result) :
    ∀ (vals : List (Option Result)) (d : Option Bool), scanCache r vals = .ok d →
      d = ((vals.filterMap id).find?
        (fun c => decide (c.track = r.track ∧ (c.albumpos = r.albumpos ∨ c.albumpos = 0)))).map
        (fun c => c.ptr == r.ptr) := by
  intro vals
  induction vals with
  | nil =>
    intro d h
    cases h
    rfl
  | cons e rest ih =>
    intro d h
    cases e with
    | none => cases h
    | some c =>
      by_cases hm : c.track = r.track ∧ (c.albumpos = r.albumpos ∨ c.albumpos = 0)
      · have hm' : (c.track == r.track && (c.albumpos == r.albumpos || c.albumpos == 0)) = true := by
          simpa using hm
        rw [scanCache, if_pos hm'] at h
        cases h
        simp [hm, List.find?]
      · have hm' : ¬ (c.track == r.track && (c.albumpos == r.albumpos || c.albumpos == 0)) = true := by
          simpa using hm
        have hd : decide (c.track = r.track ∧ (c.albumpos = r.albumpos ∨ c.albumpos = 0)) = false := by
          simpa using hm
        rw [scanCache, if_neg hm'] at h
        simp only [List.filterMap_cons, id, List.find?, hd]
        exact ih d h

/-- One iteration of the sibling loop that does not fault: either the row
visited is another row that is a preferred duplicate and the loop rejects, or it
is not and the loop goes on with the next row. -/
theorem scanSiblings_step (item : TreeModelItem) (r : Result) (sourceRow i : Nat)
    (t : Option TreeModelItem) (rest : List (Option TreeModelItem)) (b : Bool)
    (h : scanSiblings item r sourceRow i (t :: rest) = .ok b) :
    ((∃ ti tr, i ≠ sourceRow ∧ t = some ti ∧ ti.result = some tr ∧ ti.name = item.name ∧
        (tr.albumpos = r.albumpos ∨ tr.albumpos = 0 ∨ r.albumpos = 0) ∧
        ((r.isOnline = false ∧ tr.isOnline = true) ∨
         (sourceIsLocal r = .ok false ∧ sourceIsLocal tr = .ok true))) ∧ b = true) ∨
    ((¬ ∃ ti tr, i ≠ sourceRow ∧ t = some ti ∧ ti.result = some tr ∧ ti.name = item.name ∧
        (tr.albumpos = r.albumpos ∨ tr.albumpos = 0 ∨ r.albumpos = 0) ∧
        ((r.isOnline = false ∧ tr.isOnline = true) ∨
         (sourceIsLocal r = .ok false ∧ sourceIsLocal tr = .ok true))) ∧
      scanSiblings item r sourceRow (i + 1) rest = .ok b) := by
  by_cases hrow : i = sourceRow
  · have hb : (i == sourceRow) = true := by simpa using hrow
    cases t <;>
    · rw [scanSiblings, if_pos hb] at h
      exact Or.inr ⟨fun ⟨_, _, hne, _⟩ => hne hrow, h⟩
  · have hb : ¬ (i == sourceRow) = true := by simpa using hrow
    cases t with
    | none =>
      rw [scanSiblings, if_neg hb] at h
      cases h
    | some ti =>
      rw [scanSiblings, if_neg hb] at h
      by_cases hname : ti.name = item.name
      · have hnb : (ti.name == item.name) = true := by simpa using hname
        rw [if_pos hnb] at h
        cases htr : ti.result with
        | none => rw [htr] at h; cases h
        | some tr =>
          rw [htr] at h
          dsimp only at h
          by_cases hcompat : tr.albumpos = r.albumpos ∨ tr.albumpos = 0 ∨ r.albumpos = 0
          · have hc : (tr.albumpos == r.albumpos || tr.albumpos == 0 || r.albumpos == 0) = true := by
              simpa [or_assoc] using hcompat
            rw [if_pos hc] at h
            by_cases hon : r.isOnline = false ∧ tr.isOnline = true
            · have hob : (!r.isOnline && tr.isOnline) = true := by simp [hon.1, hon.2]
              rw [if_pos hob] at h
              cases h
              exact Or.inl ⟨⟨ti, tr, hrow, rfl, htr, hname, hcompat, Or.inl hon⟩, rfl⟩
            · have hob : ¬ (!r.isOnline && tr.isOnline) = true := by simpa using hon
              rw [if_neg hob] at h
              cases hil : sourceIsLocal r with
              | error e => rw [hil] at h; cases h
              | ok il =>
                rw [hil] at h
                dsimp only at h
                cases il with
                | true =>
                  rw [if_neg (by simp)] at h
                  refine Or.inr ⟨?_, h⟩
                  rintro ⟨ti', tr', _, hti, htr', _, _, hp⟩
                  cases hti
                  rw [htr] at htr'
                  cases htr'
                  rcases hp with hp | ⟨hp, _⟩
                  · exact hon hp
                  · cases hp
                | false =>
                  rw [if_pos (by simp)] at h
                  cases htl : sourceIsLocal tr with
                  | error e => rw [htl] at h; cases h
                  | ok tl =>
                    rw [htl] at h
                    dsimp only at h
                    cases tl with
                    | true =>
                      rw [if_pos rfl] at h
                      cases h
                      exact Or.inl ⟨⟨ti, tr, hrow, rfl, htr, hname, hcompat, Or.inr ⟨rfl, htl⟩⟩, rfl⟩
                    | false =>
                      rw [if_neg (by simp)] at h
                      refine Or.inr ⟨?_, h⟩
                      rintro ⟨ti', tr', _, hti, htr', _, _, hp⟩
                      cases hti
                      rw [htr] at htr'
                      cases htr'
                      rcases hp with hp | ⟨_, hp⟩
                      · exact hon hp
                      · rw [htl] at hp
                        cases hp
          · have hc : ¬ (tr.albumpos == r.albumpos || tr.albumpos == 0 || r.albumpos == 0) = true := by
              simpa [or_assoc] using hcompat
            rw [if_neg hc] at h
            refine Or.inr ⟨?_, h⟩
            rintro ⟨ti', tr', _, hti, htr', _, hcp, _⟩
            cases hti
            rw [htr] at htr'
            cases htr'
            exact hcompat hcp
      · have hnb : ¬ (ti.name == item.name) = true := by simpa using hname
        rw [if_neg hnb] at h
        refine Or.inr ⟨?_, h⟩
        rintro ⟨ti', tr', _, hti, _, hn, _⟩
        cases hti
        exact hname hn

/-- Whenever the sibling loop ends without fault, it rejects exactly when some
row it visits (row `i + k` for position `k` of the remaining list, other than
`sourceRow`) is a preferred duplicate. -/
theorem scanSiblings_ok (item : TreeModelItem) (r : Result) (sourceRow : Nat) :
    ∀ (rest : List (Option TreeModelItem)) (i : Nat) (b : Bool),
      scanSiblings item r sourceRow i rest = .ok b →
        (b = true ↔ ∃ k ti tr, i + k ≠ sourceRow ∧ rest.get? k = some (some ti) ∧
          ti.result = some tr ∧ ti.name = item.name ∧
          (tr.albumpos = r.albumpos ∨ tr.albumpos = 0 ∨ r.albumpos = 0) ∧
          ((r.isOnline = false ∧ tr.isOnline = true) ∨
           (sourceIsLocal r = .ok false ∧ sourceIsLocal tr = .ok true))) := by
  intro rest
  induction rest with
  | nil =>
    intro i b h
    cases h
    constructor
    · intro h; cases h
    · rintro ⟨k, ti, tr, _, h, _⟩
      cases h
  | cons t rest ih =>
    intro i b h
    rcases scanSiblings_step item r sourceRow i t rest b h with
      ⟨⟨ti, tr, hne, rfl, hw⟩, rfl⟩ | ⟨hnw, hnext⟩
    · constructor
      · intro _
        exact ⟨0, ti, tr, by omega, rfl, hw⟩
      · intro _; rfl
    · rw [ih (i + 1) b hnext]
      constructor
      · rintro ⟨k, ti', tr', h1, h2, h3⟩
        exact ⟨k + 1, ti', tr', by omega, h2, h3⟩
      · rintro ⟨k, ti', tr', h1, h2, h3⟩
        cases k with
        | zero =>
          exfalso
          have hti : t = some ti' := Option.some.inj h2
          exact hnw ⟨ti', tr', by omega, hti, h3⟩
        | succ k => exact ⟨k, ti', tr', by omega, h2, h3⟩

/-- The duplicate block on a row with result `r` in `DatabaseMode`, when the
cached results are non-null and the rows resolved: it runs without fault, and
returns "reject" exactly when the cache loop stops at another instance or, the
cache loop finding nothing, a sibling is preferred; it returns "accept" exactly
when the cache loop stops at the very instance of the row. -/
theorem duplicateCheck_spec (px : TreeProxyModel) (m : TreeModel) (sourceRow : Nat)
    (parent : ModelIndex) (item : TreeModelItem) (r : Result)
    (hitem : (m.children parent).get? sourceRow = some (some item))
    (hr : item.result = some r) (hmode : m.mode = ModelMode.DatabaseMode)
    (hrows : RowsResolved (m.children parent))
    (hcache : ∀ e ∈ cacheValues px.m_cache parent, e ≠ none) :
    ∃ d, duplicateCheck px m item sourceRow parent = .ok d ∧
      (d = some false ↔
        ((∃ c, firstCached px parent r = some c ∧ c.ptr ≠ r.ptr) ∨
         (firstCached px parent r = none ∧
           PreferredSibling (m.children parent) sourceRow item r))) ∧
      (d = some true ↔ ∃ c, firstCached px parent r = some c ∧ c.ptr = r.ptr) := by
  obtain ⟨ti, tr, il, hti, htr, hil⟩ := hrows (some item) (List.get?_mem hitem)
  cases hti
  rw [hr] at htr
  cases htr
  have hsc := scanCache_eq r (cacheValues px.m_cache parent) hcache
  unfold duplicateCheck
  rw [hr]
  dsimp only
  rw [if_pos (by simp [hmode]), hsc]
  cases hfc : firstCached px parent r with
  | some c =>
    have hfc' : ((cacheValues px.m_cache parent).filterMap id).find?
        (fun c => decide (c.track = r.track ∧ (c.albumpos = r.albumpos ∨ c.albumpos = 0)))
        = some c := hfc
    rw [hfc']
    refine ⟨some (c.ptr == r.ptr), rfl, ?_, ?_⟩
    · by_cases hp : c.ptr = r.ptr <;> simp [hp]
    · by_cases hp : c.ptr = r.ptr <;> simp [hp]
  | none =>
    have hfc' : ((cacheValues px.m_cache parent).filterMap id).find?
        (fun c => decide (c.track = r.track ∧ (c.albumpos = r.albumpos ∨ c.albumpos = 0)))
        = none := hfc
    rw [hfc']
    obtain ⟨b, hb, hiff⟩ := scanSiblings_spec item r sourceRow il hil (m.children parent) 0 hrows
    have hpref : b = true ↔ PreferredSibling (m.children parent) sourceRow item r := by
      rw [hiff]
      unfold PreferredSibling
      constructor
      · rintro ⟨k, ti, tr, h1, h2⟩
        exact ⟨k, ti, tr, by omega, h2⟩
      · rintro ⟨k, ti, tr, h1, h2⟩
        exact ⟨k, ti, tr, by omega, h2⟩
    dsimp only [Option.map]
    rw [hb]
    cases b with
    | true =>
      refine ⟨some false, rfl, ?_, ?_⟩
      · simp only [true_iff]
        exact Or.inr ⟨trivial, hpref.mp rfl⟩
      · simp
    | false =>
      refine ⟨none, rfl, ?_, ?_⟩
      · have hn : ¬ PreferredSibling (m.children parent) sourceRow item r :=
          fun h => Bool.false_ne_true (hpref.mpr h)
        simp [hn]
      · simp

/-! ## Row acceptance engine: empty filter -/

/-- Outside the duplicate block (model not in `DatabaseMode`, or no result on
the row) control reaches the filter-matching stage. -/
theorem duplicateCheck_outside (px : TreeProxyModel) (m : TreeModel) (sourceRow : Nat)
    (parent : ModelIndex) (item : TreeModelItem)
    (h : m.mode ≠ ModelMode.DatabaseMode ∨ item.result = none) :
    duplicateCheck px m item sourceRow parent = .ok none := by
  unfold duplicateCheck
  cases hr : item.result with
  | none => rfl
  | some r =>
    rcases h with h | h
    · dsimp only
      rw [if_neg (by simpa using h)]
    · rw [hr] at h; cases h

/-- The row lookup of `filterAcceptsRow` on an existing row. -/
theorem filterAcceptsRow_of_item (px : TreeProxyModel) (m : TreeModel) (sourceRow : Nat)
    (parent : ModelIndex) (item : TreeModelItem)
    (hitem : (m.children parent).get? sourceRow = some (some item)) :
    filterAcceptsRow px m sourceRow parent =
      match duplicateCheck px m item sourceRow parent with
      | .error e => .error e
      | .ok (some b) => .ok (b, px)
      | .ok none =>
        if !acceptedByKind px item && !termsMatch px item then .ok (false, px)
        else .ok (true, { px with m_cache := insertMulti px.m_cache parent item.result }) := by
  unfold filterAcceptsRow
  rw [hitem]
  rfl

/-- With an empty filter text, on resolved rows and a cache without null
results (needed only in `DatabaseMode` for a row with a result),
`filterAcceptsRow` returns a verdict, characterised as in C4 (amended). -/
theorem filterAcceptsRow_empty_filter_resolved (px : TreeProxyModel) (m : TreeModel) (sourceRow : Nat)
    (parent : ModelIndex) (item : TreeModelItem)
    (hitem : (m.children parent).get? sourceRow = some (some item))
    (hfilter : px.m_filter = "")
    (hres : m.mode = ModelMode.DatabaseMode → item.result ≠ none →
      RowsResolved (m.children parent) ∧ ∀ e ∈ cacheValues px.m_cache parent, e ≠ none) :
    ∃ v px', filterAcceptsRow px m sourceRow parent = .ok (v, px') ∧
      (v = false ↔ m.mode = ModelMode.DatabaseMode ∧ ∃ r, item.result = some r ∧
        ((∃ c, firstCached px parent r = some c ∧ c.ptr ≠ r.ptr) ∨
         (firstCached px parent r = none ∧
           PreferredSibling (m.children parent) sourceRow item r))) := by
  have hacc := acceptedByKind_of_empty px item hfilter
  rw [filterAcceptsRow_of_item px m sourceRow parent item hitem]
  by_cases hpath : m.mode = ModelMode.DatabaseMode ∧ item.result ≠ none
  · obtain ⟨hmode, hsome⟩ := hpath
    obtain ⟨r, hr⟩ := Option.ne_none_iff_exists'.mp hsome
    obtain ⟨hrows, hcache⟩ := hres hmode hsome
    obtain ⟨d, hd, hrej, hacc'⟩ :=
      duplicateCheck_spec px m sourceRow parent item r hitem hr hmode hrows hcache
    rw [hd]
    have hiff : (m.mode = ModelMode.DatabaseMode ∧ ∃ r', item.result = some r' ∧
        ((∃ c, firstCached px parent r' = some c ∧ c.ptr ≠ r'.ptr) ∨
         (firstCached px parent r' = none ∧
           PreferredSibling (m.children parent) sourceRow item r'))) ↔ d = some false := by
      rw [hrej]
      constructor
      · rintro ⟨_, r', hr', h⟩
        rw [hr] at hr'
        cases hr'
        exact h
      · intro h
        exact ⟨hmode, r, hr, h⟩
    rw [hiff]
    cases d with
    | none =>
      refine ⟨true, { px with m_cache := insertMulti px.m_cache parent item.result }, ?_,
        by simp⟩
      simp [hacc]
    | some b =>
      refine ⟨b, px, rfl, ?_⟩
      cases b <;> simp
  · have hout : m.mode ≠ ModelMode.DatabaseMode ∨ item.result = none := by
      by_cases hm : m.mode = ModelMode.DatabaseMode
      · right
        by_contra hn
        exact hpath ⟨hm, hn⟩
      · left; exact hm
    rw [duplicateCheck_outside px m sourceRow parent item hout]
    refine ⟨true, { px with m_cache := insertMulti px.m_cache parent item.result }, ?_, ?_⟩
    · simp [hacc]
    · simp only [Bool.true_eq_false, false_iff]
      rintro ⟨hm, r, hr, _⟩
      exact hpath ⟨hm, by rw [hr]; simp⟩

/-- C4 (as stated, refuted): with an empty filter, in `DatabaseMode`, with the
result of `twinA` cached for the parent, the row `twinB` is rejected although
the online/local preference rule does not reject it (its only sibling `twinA`
is neither online against an offline row nor local against a remote row): the
cached-duplicate rule rejects a row under an empty filter. -/
theorem empty_filter_cached_duplicate_rejected :
    proxyCachedTwinA.m_filter = "" ∧
    filterAcceptsRow proxyCachedTwinA (databaseModel [some twinA, some twinB]) 1 0
      = .ok (false, proxyCachedTwinA) ∧
    ¬ PreferredSibling [some twinA, some twinB] 1 twinB
        { ptr := 2000, track := "Help", albumpos := 2, isOnline := true,
          collection := some localCollection } := by
  refine ⟨rfl, rfl, ?_⟩
  rintro ⟨i, ti, tr, hne, hget, hres, _, _, hpref⟩
  rcases hpref with ⟨h, _⟩ | ⟨h, _⟩
  · cases h
  · cases h

/-- Whenever the duplicate block ends without fault on a row with result `r` in
`DatabaseMode`: it returns "reject" exactly when the cache loop stops at
another instance or, the cache loop finding nothing, a sibling is preferred. -/
theorem duplicateCheck_ok (px : TreeProxyModel) (m : TreeModel) (sourceRow : Nat)
    (parent : ModelIndex) (item : TreeModelItem) (r : Result) (d : Option Bool)
    (hr : item.result = some r) (hmode : m.mode = ModelMode.DatabaseMode)
    (h : duplicateCheck px m item sourceRow parent = .ok d) :
    (d = some false ↔
      ((∃ c, firstCached px parent r = some c ∧ c.ptr ≠ r.ptr) ∨
       (firstCached px parent r = none ∧
         PreferredSibling (m.children parent) sourceRow item r))) := by
  unfold duplicateCheck at h
  rw [hr] at h
  dsimp only at h
  rw [if_pos (by simp [hmode])] at h
  cases hsc : scanCache r (cacheValues px.m_cache parent) with
  | error e => rw [hsc] at h; cases h
  | ok dc =>
    rw [hsc] at h
    have hdc := scanCache_ok r (cacheValues px.m_cache parent) dc hsc
    change dc = (firstCached px parent r).map (fun c => c.ptr == r.ptr) at hdc
    cases hfc : firstCached px parent r with
    | some c =>
      rw [hfc] at hdc
      subst hdc
      dsimp only [Option.map] at h
      cases h
      by_cases hp : c.ptr = r.ptr <;> simp [hp]
    | none =>
      rw [hfc] at hdc
      subst hdc
      dsimp only [Option.map] at h
      cases hss : scanSiblings item r sourceRow 0 (m.children parent) with
      | error e => rw [hss] at h; cases h
      | ok b =>
        rw [hss] at h
        have hiff := scanSiblings_ok item r sourceRow (m.children parent) 0 b hss
        have hpref : b = true ↔ PreferredSibling (m.children parent) sourceRow item r := by
          rw [hiff]
          unfold PreferredSibling
          constructor
          · rintro ⟨k, ti, tr, h1, h2⟩
            exact ⟨k, ti, tr, by omega, h2⟩
          · rintro ⟨k, ti, tr, h1, h2⟩
            exact ⟨k, ti, tr, by omega, h2⟩
        cases b with
        | true =>
          cases h
          simp only [true_iff]
          exact Or.inr ⟨trivial, hpref.mp rfl⟩
        | false =>
          cases h
          have hn : ¬ PreferredSibling (m.children parent) sourceRow item r :=
            fun hp => Bool.false_ne_true (hpref.mpr hp)
          simp [hn]

/-- With an empty filter text, whenever `filterAcceptsRow` returns a verdict,
the verdict is "reject" exactly when the duplicate block rejects. -/
theorem filterAcceptsRow_empty_filter_verdict (px : TreeProxyModel) (m : TreeModel)
    (sourceRow : Nat) (parent : ModelIndex) (item : TreeModelItem) (v : Bool)
    (px' : TreeProxyModel)
    (hitem : (m.children parent).get? sourceRow = some (some item))
    (hfilter : px.m_filter = "")
    (h : filterAcceptsRow px m sourceRow parent = .ok (v, px')) :
    (v = false ↔ m.mode = ModelMode.DatabaseMode ∧ ∃ r, item.result = some r ∧
      ((∃ c, firstCached px parent r = some c ∧ c.ptr ≠ r.ptr) ∨
       (firstCached px parent r = none ∧
         PreferredSibling (m.children parent) sourceRow item r))) := by
  have hacc := acceptedByKind_of_empty px item hfilter
  rw [filterAcceptsRow_of_item px m sourceRow parent item hitem] at h
  by_cases hpath : m.mode = ModelMode.DatabaseMode ∧ item.result ≠ none
  · obtain ⟨hmode, hsome⟩ := hpath
    obtain ⟨r, hr⟩ := Option.ne_none_iff_exists'.mp hsome
    have hiff : (m.mode = ModelMode.DatabaseMode ∧ ∃ r', item.result = some r' ∧
        ((∃ c, firstCached px parent r' = some c ∧ c.ptr ≠ r'.ptr) ∨
         (firstCached px parent r' = none ∧
           PreferredSibling (m.children parent) sourceRow item r'))) ↔
        ((∃ c, firstCached px parent r = some c ∧ c.ptr ≠ r.ptr) ∨
         (firstCached px parent r = none ∧
           PreferredSibling (m.children parent) sourceRow item r)) := by
      constructor
      · rintro ⟨_, r', hr', h'⟩
        rw [hr] at hr'
        cases hr'
        exact h'
      · intro h'
        exact ⟨hmode, r, hr, h'⟩
    rw [hiff]
    cases hd : duplicateCheck px m item sourceRow parent with
    | error e => rw [hd] at h; cases h
    | ok d =>
      rw [hd] at h
      rw [← duplicateCheck_ok px m sourceRow parent item r d hr hmode hd]
      cases d with
      | none =>
        simp only [hacc, Bool.not_true, Bool.false_and] at h
        rw [if_neg (by simp)] at h
        cases h
        simp
      | some b =>
        cases h
        cases v <;> simp
  · have hout : m.mode ≠ ModelMode.DatabaseMode ∨ item.result = none := by
      by_cases hm : m.mode = ModelMode.DatabaseMode
      · right
        by_contra hn
        exact hpath ⟨hm, hn⟩
      · left; exact hm
    rw [duplicateCheck_outside px m sourceRow parent item hout] at h
    simp only [hacc, Bool.not_true, Bool.false_and] at h
    rw [if_neg (by simp)] at h
    cases h
    simp only [Bool.true_eq_false, false_iff]
    rintro ⟨hm, r, hr, _⟩
    exact hpath ⟨hm, by rw [hr]; simp⟩

/-- C4 (amended): with an empty filter text, whenever `filterAcceptsRow` returns
a verdict on a row, it rejects the row exactly when the model is in
`DatabaseMode`, the row has a result, and either the cache loop stops at a
cached result that is another instance (cached-duplicate rule), or no cached
result matches and the online/local preference rule finds a preferred sibling;
filter matching rejects no row.  A verdict is returned whenever, in
`DatabaseMode` for a row with a result, the sibling rows are resolved and the
cached results of the parent are non-null, and always outside that case. -/
theorem empty_filter_rejects_only_duplicates (px : TreeProxyModel) (m : TreeModel) (sourceRow : Nat)
    (parent : ModelIndex) (item : TreeModelItem)
    (hitem : (m.children parent).get? sourceRow = some (some item))
    (hfilter : px.m_filter = "") :
    (∀ v px', filterAcceptsRow px m sourceRow parent = .ok (v, px') →
      (v = false ↔ m.mode = ModelMode.DatabaseMode ∧ ∃ r, item.result = some r ∧
        ((∃ c, firstCached px parent r = some c ∧ c.ptr ≠ r.ptr) ∨
         (firstCached px parent r = none ∧
           PreferredSibling (m.children parent) sourceRow item r)))) ∧
    ((m.mode = ModelMode.DatabaseMode → item.result ≠ none →
        RowsResolved (m.children parent) ∧ ∀ e ∈ cacheValues px.m_cache parent, e ≠ none) →
      ∃ v px', filterAcceptsRow px m sourceRow parent = .ok (v, px')) := by
  constructor
  · intro v px' h
    exact filterAcceptsRow_empty_filter_verdict px m sourceRow parent item v px' hitem hfilter h
  · intro hres
    obtain ⟨v, px', h, _⟩ :=
      filterAcceptsRow_empty_filter_resolved px m sourceRow parent item hitem hfilter hres
    exact ⟨v, px', h⟩

/-- Instance of C4 (amended): the row `twinA`, evaluated with an empty filter
and an empty cache next to its twin `twinB`, is accepted, and is not rejected
by either rule. -/
theorem empty_filter_rejects_only_duplicates_witness :
    filterAcceptsRow (proxyWith RepeatMode.NoRepeat) (databaseModel [some twinA, some twinB]) 0 0
      = .ok (true, { proxyWith RepeatMode.NoRepeat with m_cache := [(0, twinA.result)] }) ∧
    (true = false ↔ (databaseModel [some twinA, some twinB]).mode = ModelMode.DatabaseMode ∧
      ∃ r, twinA.result = some r ∧
        ((∃ c, firstCached (proxyWith RepeatMode.NoRepeat) 0 r = some c ∧ c.ptr ≠ r.ptr) ∨
         (firstCached (proxyWith RepeatMode.NoRepeat) 0 r = none ∧
           PreferredSibling ((databaseModel [some twinA, some twinB]).children 0) 0 twinA r))) :=
  ⟨rfl, (empty_filter_rejects_only_duplicates (proxyWith RepeatMode.NoRepeat)
    (databaseModel [some twinA, some twinB]) 0 0 twinA rfl rfl).1 true
    { proxyWith RepeatMode.NoRepeat with m_cache := [(0, twinA.result)] } rfl⟩

/-! ## Row acceptance engine: artist and album rows -/

/-- The term loop accepts exactly when every term of the filter occurs in one
of the three names of the item. -/
theorem termsMatch_iff (px : TreeProxyModel) (item : TreeModelItem) :
    termsMatch px item = true ↔ TermsOccur px.m_filter item := by
  unfold termsMatch TermsOccur
  rw [List.all_eq_true]
  constructor
  · intro h s hs
    have := h s hs
    revert this
    cases containsCI item.name s <;> cases containsCI item.albumName s <;>
      cases containsCI item.artistName s <;> simp
  · intro h s hs
    have := h s hs
    revert this
    cases containsCI item.name s <;> cases containsCI item.albumName s <;>
      cases containsCI item.artistName s <;> simp

/-- Outside the duplicate block, `filterAcceptsRow` returns a verdict, which is
"accept" exactly when the filter-matching stage accepts by kind or by terms. -/
theorem filterAcceptsRow_outside (px : TreeProxyModel) (m : TreeModel) (sourceRow : Nat)
    (parent : ModelIndex) (item : TreeModelItem)
    (hitem : (m.children parent).get? sourceRow = some (some item))
    (hout : m.mode ≠ ModelMode.DatabaseMode ∨ item.result = none) :
    ∃ v px', filterAcceptsRow px m sourceRow parent = .ok (v, px') ∧
      (v = true ↔ acceptedByKind px item = true ∨ TermsOccur px.m_filter item) := by
  rw [filterAcceptsRow_of_item px m sourceRow parent item hitem,
    duplicateCheck_outside px m sourceRow parent item hout, ← termsMatch_iff]
  cases hk : acceptedByKind px item <;> cases ht : termsMatch px item
  · exact ⟨false, px, rfl, by simp⟩
  · exact ⟨true, { px with m_cache := insertMulti px.m_cache parent item.result }, rfl, by simp⟩
  · exact ⟨true, { px with m_cache := insertMulti px.m_cache parent item.result }, rfl, by simp⟩
  · exact ⟨true, { px with m_cache := insertMulti px.m_cache parent item.result }, rfl, by simp⟩

/-- C10 (as stated, refuted): with filter text "beat" and an empty artist-match
set, the artist row "The Beatles" (no result, so outside the duplicate block)
is accepted although its artist is not in the artist-match set: the term "beat"
occurs in its name. -/
theorem artist_outside_match_set_accepted :
    proxyBeat.m_filter = "beat" ∧ proxyBeat.m_artistsFilter = [] ∧
    artistBeatles.result = none ∧
    filterAcceptsRow proxyBeat (databaseModel [some artistBeatles]) 0 0
      = .ok (true, { proxyBeat with m_cache := [(0, none)] }) :=
  ⟨rfl, rfl, rfl, rfl⟩

/-- C10 (amended): with a non-empty filter text and outside the duplicate block
(model not in `DatabaseMode`, or the row has no result), `filterAcceptsRow`
returns a verdict; for an artist node the verdict is "accept" exactly when the
artist is in the artist-match set or every term of the filter occurs
(case-insensitively) in the name, album name or artist name of the row; for an
album node (album reference, no artist reference) it is "accept" exactly when
the album id is in the album-match set or every term occurs in one of those
names. -/
theorem filterAcceptsRow_artist_album (px : TreeProxyModel) (m : TreeModel) (sourceRow : Nat)
    (parent : ModelIndex) (item : TreeModelItem)
    (hitem : (m.children parent).get? sourceRow = some (some item))
    (hfilter : px.m_filter ≠ "")
    (hout : m.mode ≠ ModelMode.DatabaseMode ∨ item.result = none) :
    ∃ v px', filterAcceptsRow px m sourceRow parent = .ok (v, px') ∧
      (∀ a, item.artist = some a →
        (v = true ↔ (∃ x ∈ px.m_artistsFilter, x.ptr = a.ptr) ∨ TermsOccur px.m_filter item)) ∧
      (∀ al, item.artist = none → item.album = some al →
        (v = true ↔ al.id ∈ px.m_albumsFilter ∨ TermsOccur px.m_filter item)) := by
  obtain ⟨v, px', hv, hiff⟩ := filterAcceptsRow_outside px m sourceRow parent item hitem hout
  have hne : px.m_filter.isEmpty = false := by
    cases he : px.m_filter.isEmpty with
    | false => rfl
    | true => exact absurd ((String.isEmpty_iff px.m_filter).mp he) hfilter
  refine ⟨v, px', hv, ?_, ?_⟩
  · intro a ha
    rw [hiff]
    have hk : acceptedByKind px item = true ↔ ∃ x ∈ px.m_artistsFilter, x.ptr = a.ptr := by
      simp [acceptedByKind, hne, ha]
    rw [hk]
  · intro al hna hal
    rw [hiff]
    have hk : acceptedByKind px item = true ↔ al.id ∈ px.m_albumsFilter := by
      simp [acceptedByKind, hne, hna, hal]
    rw [hk]

/-- Instance of C10 (amended): the artist row "The Beatles" under the filter "beat". -/
theorem filterAcceptsRow_artist_album_witness :
    ∃ v px', filterAcceptsRow proxyBeat (databaseModel [some artistBeatles]) 0 0 = .ok (v, px') ∧
      (∀ a, artistBeatles.artist = some a →
        (v = true ↔ (∃ x ∈ proxyBeat.m_artistsFilter, x.ptr = a.ptr) ∨
          TermsOccur proxyBeat.m_filter artistBeatles)) ∧
      (∀ al, artistBeatles.artist = none → artistBeatles.album = some al →
        (v = true ↔ al.id ∈ proxyBeat.m_albumsFilter ∨
          TermsOccur proxyBeat.m_filter artistBeatles)) :=
  filterAcceptsRow_artist_album proxyBeat (databaseModel [some artistBeatles]) 0 0 artistBeatles
    rfl (by decide) (Or.inr rfl)

/-! ## Filter controller -/

/-- The cancellation `setFilter` performs: an in-flight command whose handle is
the stored `m_artistsFilterCmd` is disconnected by the call. -/
theorem setFilter_disconnects_stored_handle (m : TreeModel) (c : Controller) (pattern : String)
    (h : Nat) (hh : c.proxy.m_artistsFilterCmd = some h) (hlt : h < c.nextHandle) :
    ∀ p ∈ (step m c (Event.setFilter pattern)).queue, p.handle = h → p.connected = false := by
  intro p hp hph
  simp only [step, setFilter, hh] at hp
  cases he : pattern.isEmpty with
  | true =>
    simp only [he, if_true] at hp
    simp only [filterFinished, disconnectCmd, List.mem_map] at hp
    obtain ⟨q, _, rfl⟩ := hp
    by_cases hq : q.handle = h
    · simp [hq]
    · simp [hq] at hph
  | false =>
    simp only [he, Bool.false_eq_true, if_false] at hp
    simp only [enqueue, disconnectCmd, List.mem_append, List.mem_map, List.mem_singleton] at hp
    rcases hp with ⟨q, _, rfl⟩ | rfl
    · by_cases hq : q.handle = h
      · simp [hq]
      · simp [hq] at hph
    · simp at hph
      omega

/-- C1 (evaluation at the failing input): in the run `staleRun`, when
`setFilter( "xyz" )` is called the artist request for "abc" (handle 0) is still
in flight and connected, but the handle `m_artistsFilterCmd` has already been
cleared by the `filterFinished` of an album completion, so `setFilter` does not
disconnect it; after `setFilter( "xyz" )` the artist-match set is empty, and the
later completion of the "abc" request stores its artists in `m_artistsFilter`
while the filter text is "xyz". -/
theorem stale_artists_applied_to_new_filter :
    (run (databaseModel []) Controller.init (staleRun.take 3)).queue =
      [{ handle := 0, cmd := DatabaseCommand.AllArtists "abc", connected := true }] ∧
    (run (databaseModel []) Controller.init (staleRun.take 3)).proxy.m_artistsFilterCmd = none ∧
    (run (databaseModel []) Controller.init (staleRun.take 4)).proxy.m_filter = "xyz" ∧
    (run (databaseModel []) Controller.init (staleRun.take 4)).proxy.m_artistsFilter = [] ∧
    (run (databaseModel []) Controller.init staleRun).proxy.m_filter = "xyz" ∧
    (run (databaseModel []) Controller.init staleRun).proxy.m_artistsFilter = [artistAbc] := by
  refine ⟨?_, ?_, ?_, ?_, ?_, ?_⟩ <;> rfl

/-! ## Navigation engine: nearest online sibling, index updates, shuffle, wrap -/

/-- Forward search returns only what it has found: the row it stops at holds
the online result returned, lies at or after the start, and no row in between
holds an online result. -/
theorem seek_forward_sound (rows : List (Option TreeModelItem)) (itemsAway : Int)
    (hdir : itemsAway > 0) (j : Nat) (res : Result) :
    ∀ (fuel r : Nat), seek rows itemsAway fuel (some r) = some (j, res) →
      onlineResult rows j = some res ∧ r ≤ j ∧
        ∀ k, r ≤ k → k < j → onlineResult rows k = none := by
  intro fuel
  induction fuel with
  | zero => intro r h; cases h
  | succ f ih =>
    intro r h
    rw [seek_succ] at h
    cases hon : onlineResult rows r with
    | some res' =>
      rw [hon] at h
      cases h
      exact ⟨hon, le_refl _, fun k h1 h2 => absurd h2 (by omega)⟩
    | none =>
      rw [hon] at h
      simp only [rowStep, if_pos hdir] at h
      rw [index_succ] at h
      by_cases hlt : r + 1 < rows.length
      · rw [if_pos hlt] at h
        obtain ⟨h1, h2, h3⟩ := ih (r + 1) h
        refine ⟨h1, by omega, fun k hk1 hk2 => ?_⟩
        by_cases hkr : k = r
        · rw [hkr]; exact hon
        · exact h3 k (by omega) hk2
      · rw [if_neg hlt, seek_none] at h
        cases h

/-- Backward search returns only what it has found. -/
theorem seek_backward_sound (rows : List (Option TreeModelItem)) (itemsAway : Int)
    (hdir : ¬ itemsAway > 0) (j : Nat) (res : Result) :
    ∀ (fuel r : Nat), seek rows itemsAway fuel (some r) = some (j, res) →
      onlineResult rows j = some res ∧ j ≤ r ∧
        ∀ k, j < k → k ≤ r → onlineResult rows k = none := by
  intro fuel
  induction fuel with
  | zero => intro r h; cases h
  | succ f ih =>
    intro r h
    rw [seek_succ] at h
    cases hon : onlineResult rows r with
    | some res' =>
      rw [hon] at h
      cases h
      exact ⟨hon, le_refl _, fun k h1 h2 => absurd h2 (by omega)⟩
    | none =>
      rw [hon] at h
      simp only [rowStep, if_neg hdir] at h
      rw [index_pred] at h
      by_cases hlt : 0 < r ∧ r - 1 < rows.length
      · rw [if_pos hlt] at h
        obtain ⟨h1, h2, h3⟩ := ih (r - 1) h
        refine ⟨h1, by omega, fun k hk1 hk2 => ?_⟩
        by_cases hkr : k = r
        · rw [hkr]; exact hon
        · exact h3 k hk1 (by omega)
      · rw [if_neg hlt, seek_none] at h
        cases h

/-- Forward search with enough iterations finds nothing only when no row from
the start on holds an online result. -/
theorem seek_forward_complete (rows : List (Option TreeModelItem)) (itemsAway : Int)
    (hdir : itemsAway > 0) :
    ∀ (fuel r : Nat), rows.length ≤ r + fuel → seek rows itemsAway fuel (some r) = none →
      ∀ k, r ≤ k → onlineResult rows k = none := by
  intro fuel
  induction fuel with
  | zero =>
    intro r hlen _ k hk
    exact onlineResult_eq_none_of_length_le rows k (by omega)
  | succ f ih =>
    intro r hlen h k hk
    rw [seek_succ] at h
    cases hon : onlineResult rows r with
    | some res' => rw [hon] at h; cases h
    | none =>
      rw [hon] at h
      simp only [rowStep, if_pos hdir] at h
      rw [index_succ] at h
      by_cases hkr : k = r
      · rw [hkr]; exact hon
      · by_cases hlt : r + 1 < rows.length
        · rw [if_pos hlt] at h
          exact ih (r + 1) (by omega) h k (by omega)
        · exact onlineResult_eq_none_of_length_le rows k (by omega)

/-- Backward search with enough iterations finds nothing only when no row up
to the start holds an online result. -/
theorem seek_backward_complete (rows : List (Option TreeModelItem)) (itemsAway : Int)
    (hdir : ¬ itemsAway > 0) :
    ∀ (fuel r : Nat), r < fuel → r < rows.length → seek rows itemsAway fuel (some r) = none →
      ∀ k, k ≤ r → onlineResult rows k = none := by
  intro fuel
  induction fuel with
  | zero => intro r hf; omega
  | succ f ih =>
    intro r hf hlen h k hk
    rw [seek_succ] at h
    cases hon : onlineResult rows r with
    | some res' => rw [hon] at h; cases h
    | none =>
      rw [hon] at h
      simp only [rowStep, if_neg hdir] at h
      rw [index_pred] at h
      by_cases hkr : k = r
      · rw [hkr]; exact hon
      · have hlt : 0 < r ∧ r - 1 < rows.length := ⟨by omega, by omega⟩
        rw [if_pos hlt] at h
        exact ih (r - 1) (by omega) (by omega) h k (by omega)

/-- With a valid current index, `siblingItem` returns what the search loop
finds from the start index, and moves or clears the current index unless the
call is read-only. -/
theorem siblingItem_of_currentIndex (px : TreeProxyModel) (v : PlaylistView) (draw : Nat)
    (itemsAway : Int) (readOnly : Bool) (cur : Nat) (hcur : currentIndex v = some cur) :
    siblingItem px v draw itemsAway readOnly =
      match seek v.rows itemsAway (v.rows.length + 1)
          (startIndex px v.rows cur draw itemsAway) with
      | some (r, res) => (some res, if readOnly then v else { v with current := some r })
      | none => (none, if readOnly then v else { v with current := none }) := by
  unfold siblingItem
  rw [hcur]

/-- The start index with shuffle off and repeat mode None: one row forward or back. -/
theorem startIndex_noRepeat (px : TreeProxyModel) (rows : List (Option TreeModelItem))
    (cur draw : Nat) (itemsAway : Int)
    (hs : px.m_shuffled = false) (hr : px.m_repeatMode = RepeatMode.NoRepeat) :
    startIndex px rows cur draw itemsAway = index rows ((cur : Int) + rowStep itemsAway) := by
  simp [startIndex, hs, hr]

/-- C17: with shuffle off and repeat mode None, from a valid current row `i`,
`siblingItem` forward returns a result exactly when it is the online result of
the smallest row after `i` that holds one, and `siblingItem` backward exactly
when it is the online result of the largest row before `i` that holds one; it
returns empty exactly when no such row exists.  A returned result is thus
always the online result of an existing row with a result. -/
theorem siblingItem_noRepeat_nearest_online (px : TreeProxyModel) (v : PlaylistView)
    (draw : Nat) (itemsAway : Int) (readOnly : Bool) (i : Nat)
    (hs : px.m_shuffled = false) (hr : px.m_repeatMode = RepeatMode.NoRepeat)
    (hcur : currentIndex v = some i) :
    (itemsAway > 0 →
      (∀ res, (siblingItem px v draw itemsAway readOnly).1 = some res ↔
        ∃ j, i < j ∧ onlineResult v.rows j = some res ∧
          ∀ k, i < k → k < j → onlineResult v.rows k = none) ∧
      ((siblingItem px v draw itemsAway readOnly).1 = none ↔
        ∀ j, i < j → onlineResult v.rows j = none)) ∧
    (¬ itemsAway > 0 →
      (∀ res, (siblingItem px v draw itemsAway readOnly).1 = some res ↔
        ∃ j, j < i ∧ onlineResult v.rows j = some res ∧
          ∀ k, j < k → k < i → onlineResult v.rows k = none) ∧
      ((siblingItem px v draw itemsAway readOnly).1 = none ↔
        ∀ j, j < i → onlineResult v.rows j = none)) := by
  obtain ⟨_, hilen⟩ := current_of_currentIndex v i hcur
  have hsib := siblingItem_of_currentIndex px v draw itemsAway readOnly i hcur
  rw [startIndex_noRepeat px v.rows i draw itemsAway hs hr] at hsib
  constructor
  · intro hdir
    simp only [rowStep, if_pos hdir] at hsib
    rw [index_succ] at hsib
    by_cases hlt : i + 1 < v.rows.length
    · rw [if_pos hlt] at hsib
      constructor
      · intro res
        constructor
        · intro h
          rw [hsib] at h
          cases hsk : seek v.rows itemsAway (v.rows.length + 1) (some (i + 1)) with
          | none => rw [hsk] at h; cases h
          | some p =>
            obtain ⟨j, res'⟩ := p
            rw [hsk] at h
            cases h
            obtain ⟨h1, h2, h3⟩ := seek_forward_sound v.rows itemsAway hdir j res _ _ hsk
            exact ⟨j, by omega, h1, fun k hk1 hk2 => h3 k (by omega) hk2⟩
        · rintro ⟨j, hij, hj, hmin⟩
          have hjlen := lt_length_of_onlineResult v.rows j res hj
          have hsk := seek_forward_found v.rows itemsAway hdir j res hj (j - (i + 1)) (i + 1)
            (v.rows.length + 1) (by omega) (by omega) (fun k hk1 hk2 => hmin k (by omega) hk2)
          rw [hsib, hsk]
      · constructor
        · intro h
          rw [hsib] at h
          cases hsk : seek v.rows itemsAway (v.rows.length + 1) (some (i + 1)) with
          | some p => rw [hsk] at h; cases h
          | none =>
            intro j hj
            exact seek_forward_complete v.rows itemsAway hdir _ _ (by omega) hsk j (by omega)
        · intro h
          have hsk := seek_forward_exhausted v.rows itemsAway hdir (v.rows.length + 1) (i + 1)
            (fun k hk => h k (by omega))
          rw [hsib, hsk]
    · rw [if_neg hlt, seek_none] at hsib
      have hnone : ∀ j, i < j → onlineResult v.rows j = none :=
        fun j hj => onlineResult_eq_none_of_length_le v.rows j (by omega)
      constructor
      · intro res
        constructor
        · intro h; rw [hsib] at h; cases h
        · rintro ⟨j, hij, hj, _⟩
          rw [hnone j hij] at hj
          cases hj
      · exact ⟨fun _ => hnone, fun _ => by rw [hsib]⟩
  · intro hdir
    simp only [rowStep, if_neg hdir] at hsib
    rw [index_pred] at hsib
    by_cases hlt : 0 < i ∧ i - 1 < v.rows.length
    · rw [if_pos hlt] at hsib
      constructor
      · intro res
        constructor
        · intro h
          rw [hsib] at h
          cases hsk : seek v.rows itemsAway (v.rows.length + 1) (some (i - 1)) with
          | none => rw [hsk] at h; cases h
          | some p =>
            obtain ⟨j, res'⟩ := p
            rw [hsk] at h
            cases h
            obtain ⟨h1, h2, h3⟩ := seek_backward_sound v.rows itemsAway hdir j res _ _ hsk
            exact ⟨j, by omega, h1, fun k hk1 hk2 => h3 k hk1 (by omega)⟩
        · rintro ⟨j, hij, hj, hmin⟩
          have hsk := seek_backward_found v.rows itemsAway hdir j res hj (i - 1 - j) (i - 1)
            (v.rows.length + 1) (by omega) (by omega) (by omega)
            (fun k hk1 hk2 => hmin k hk1 (by omega))
          rw [hsib, hsk]
      · constructor
        · intro h
          rw [hsib] at h
          cases hsk : seek v.rows itemsAway (v.rows.length + 1) (some (i - 1)) with
          | some p => rw [hsk] at h; cases h
          | none =>
            intro j hj
            exact seek_backward_complete v.rows itemsAway hdir _ _ (by omega) (by omega) hsk j
              (by omega)
        · intro h
          have hsk := seek_backward_exhausted v.rows itemsAway hdir (v.rows.length + 1) (i - 1)
            (fun k hk => h k (by omega))
          rw [hsib, hsk]
    · rw [if_neg hlt, seek_none] at hsib
      have hi0 : i = 0 := by omega
      constructor
      · intro res
        constructor
        · intro h; rw [hsib] at h; cases h
        · rintro ⟨j, hij, _⟩
          omega
      · exact ⟨fun _ j hj => by omega, fun _ => by rw [hsib]⟩

/-- Instance of C17: on the siblings A (online), B (offline), C (online) with
current row A and repeat mode None, a forward step skips B and returns C. -/
theorem siblingItem_noRepeat_nearest_online_witness :
    (siblingItem (proxyWith RepeatMode.NoRepeat) { rows := rowsABC, current := some 0 } 0 1
      false).1 = trackC.result :=
  (((siblingItem_noRepeat_nearest_online (proxyWith RepeatMode.NoRepeat)
      { rows := rowsABC, current := some 0 } 0 1 false 0 rfl rfl rfl).1 (by decide)).1
    { ptr := 31, track := "C", albumpos := 3, isOnline := true,
      collection := some localCollection }).mpr
    ⟨2, by decide, rfl, fun k h1 h2 => by
      have hk : k = 1 := by omega
      subst hk
      rfl⟩

/-- The search returns only online results of existing rows, in either direction. -/
theorem seek_sound (rows : List (Option TreeModelItem)) (itemsAway : Int) (fuel r j : Nat)
    (res : Result) (h : seek rows itemsAway fuel (some r) = some (j, res)) :
    onlineResult rows j = some res := by
  by_cases hdir : itemsAway > 0
  · exact (seek_forward_sound rows itemsAway hdir j res fuel r h).1
  · exact (seek_backward_sound rows itemsAway hdir j res fuel r h).1

/-- The start index of `siblingItem` is a valid row, or invalid. -/
theorem seek_start_sound (rows : List (Option TreeModelItem)) (itemsAway : Int) (fuel j : Nat)
    (start : Option Nat) (res : Result)
    (h : seek rows itemsAway fuel start = some (j, res)) :
    onlineResult rows j = some res := by
  cases start with
  | none => rw [seek_none] at h; cases h
  | some r => exact seek_sound rows itemsAway fuel r j res h

/-- C18: `siblingItem` with `readOnly = true` leaves the view, hence the current
index, unchanged; with `readOnly = false` it sets the current index to the row
whose online result it returns when it returns a result, and clears the
current index when it returns empty from a valid current index; with an
invalid current index it returns empty and changes nothing.  This holds for
every direction, repeat mode, shuffle flag and draw. -/
theorem siblingItem_current_index_effect (px : TreeProxyModel) (v : PlaylistView) (draw : Nat)
    (itemsAway : Int) :
    (siblingItem px v draw itemsAway true).2 = v ∧
    (∀ res, (siblingItem px v draw itemsAway false).1 = some res →
      ∃ j, (siblingItem px v draw itemsAway false).2 = { v with current := some j } ∧
        onlineResult v.rows j = some res) ∧
    ((siblingItem px v draw itemsAway false).1 = none → currentIndex v ≠ none →
      (siblingItem px v draw itemsAway false).2 = { v with current := none }) ∧
    (∀ readOnly, currentIndex v = none →
      siblingItem px v draw itemsAway readOnly = (none, v)) := by
  cases hcur : currentIndex v with
  | none =>
    have hsib : ∀ ro, siblingItem px v draw itemsAway ro = (none, v) := by
      intro ro
      unfold siblingItem
      rw [hcur]
    refine ⟨by rw [hsib], ?_, ?_, fun ro _ => hsib ro⟩
    · intro res h
      rw [hsib] at h
      cases h
    · intro _ h
      exact absurd rfl h
  | some cur =>
    have hsib := fun ro => siblingItem_of_currentIndex px v draw itemsAway ro cur hcur
    cases hsk : seek v.rows itemsAway (v.rows.length + 1)
        (startIndex px v.rows cur draw itemsAway) with
    | none =>
      simp only [hsk] at hsib
      refine ⟨by rw [hsib]; rfl, ?_, ?_, fun ro h => by cases h⟩
      · intro res h
        rw [hsib] at h
        cases h
      · intro _ _
        rw [hsib]
        rfl
    | some p =>
      obtain ⟨j, res'⟩ := p
      simp only [hsk] at hsib
      refine ⟨by rw [hsib]; rfl, ?_, ?_, fun ro h => by cases h⟩
      · intro res h
        rw [hsib] at h
        cases h
        exact ⟨j, by rw [hsib]; rfl, seek_start_sound v.rows itemsAway _ j _ res' hsk⟩
      · intro h
        rw [hsib] at h
        cases h

/-- Instance of C18: on the siblings A, B, C with current row A and repeat mode
None, the forward step that may move the index returns C and moves the
current index to row 2. -/
theorem siblingItem_current_index_effect_witness :
    ∃ j, (siblingItem (proxyWith RepeatMode.NoRepeat) { rows := rowsABC, current := some 0 } 0 1
        false).2 = { rows := rowsABC, current := some j } ∧
      onlineResult rowsABC j = trackC.result :=
  (siblingItem_current_index_effect (proxyWith RepeatMode.NoRepeat)
    { rows := rowsABC, current := some 0 } 0 1).2.1
    { ptr := 31, track := "C", albumpos := 3, isOnline := true,
      collection := some localCollection } rfl

/-- C19: with shuffle on and a valid current index, the search of `siblingItem`
starts at row `draw % n` (`n` the number of siblings), a valid row, for every
direction and every repeat mode; `siblingItem` returns what the search finds
from there, so when that row holds an online result it is returned, whatever
the current row, the repeat mode and the direction. -/
theorem siblingItem_shuffle_start (px : TreeProxyModel) (v : PlaylistView) (draw : Nat)
    (itemsAway : Int) (readOnly : Bool) (cur : Nat)
    (hs : px.m_shuffled = true) (hcur : currentIndex v = some cur) :
    draw % v.rows.length < v.rows.length ∧
    startIndex px v.rows cur draw itemsAway = some (draw % v.rows.length) ∧
    (siblingItem px v draw itemsAway readOnly).1 =
      (seek v.rows itemsAway (v.rows.length + 1) (some (draw % v.rows.length))).map Prod.snd ∧
    (∀ res, onlineResult v.rows (draw % v.rows.length) = some res →
      (siblingItem px v draw itemsAway readOnly).1 = some res) := by
  obtain ⟨_, hlen⟩ := current_of_currentIndex v cur hcur
  have hmod : draw % v.rows.length < v.rows.length := Nat.mod_lt _ (by omega)
  have hstart : startIndex px v.rows cur draw itemsAway = some (draw % v.rows.length) := by
    have hidx := index_of_lt v.rows (draw % v.rows.length) hmod
    simp only [startIndex, hs, if_true, hidx]
    rfl
  have hsib := siblingItem_of_currentIndex px v draw itemsAway readOnly cur hcur
  rw [hstart] at hsib
  have hfst : (siblingItem px v draw itemsAway readOnly).1 =
      (seek v.rows itemsAway (v.rows.length + 1) (some (draw % v.rows.length))).map
        Prod.snd := by
    rw [hsib]
    cases seek v.rows itemsAway (v.rows.length + 1) (some (draw % v.rows.length)) with
    | none => rfl
    | some p => rfl
  refine ⟨hmod, hstart, hfst, ?_⟩
  intro res hres
  rw [hfst, seek_succ, hres]
  rfl

/-- Instance of C19: shuffle on, repeat mode One, siblings A, B, C with current
row A; the draw 5 starts the search at row 2, and C is returned although
repeat-one is set and the step is backward. -/
theorem siblingItem_shuffle_start_witness :
    (siblingItem { proxyWith RepeatMode.RepeatOne with m_shuffled := true }
      { rows := rowsABC, current := some 0 } 5 (-1) false).1 = trackC.result :=
  (siblingItem_shuffle_start { proxyWith RepeatMode.RepeatOne with m_shuffled := true }
    { rows := rowsABC, current := some 0 } 5 (-1) false 0 rfl rfl).2.2.2
    { ptr := 31, track := "C", albumpos := 3, isOnline := true,
      collection := some localCollection } rfl

/-- C20: with shuffle off and repeat mode All, the wrap to the first or last row
is applied to the first candidate only: from a current row that is not the last
sibling, when no later row holds an online result, `siblingItem` forward
returns empty and, unless read-only, clears the current index, whatever the
current and earlier rows hold; likewise backward from a row that is not the
first when no earlier row holds an online result. -/
theorem siblingItem_repeatAll_no_wrap_midlist (px : TreeProxyModel) (v : PlaylistView)
    (draw : Nat) (itemsAway : Int) (readOnly : Bool) (i : Nat)
    (hs : px.m_shuffled = false) (hr : px.m_repeatMode = RepeatMode.RepeatAll)
    (hcur : currentIndex v = some i) :
    (itemsAway > 0 → i + 1 < v.rows.length →
      (∀ k, i < k → onlineResult v.rows k = none) →
      siblingItem px v draw itemsAway readOnly =
        (none, if readOnly then v else { v with current := none })) ∧
    (¬ itemsAway > 0 → 0 < i →
      (∀ k, k < i → onlineResult v.rows k = none) →
      siblingItem px v draw itemsAway readOnly =
        (none, if readOnly then v else { v with current := none })) := by
  obtain ⟨_, hilen⟩ := current_of_currentIndex v i hcur
  have hsib := siblingItem_of_currentIndex px v draw itemsAway readOnly i hcur
  constructor
  · intro hdir hlt hnone
    have hstart : startIndex px v.rows i draw itemsAway = some (i + 1) := by
      have hnext : index v.rows ((i : Int) + 1) = some (i + 1) := by
        rw [index_succ, if_pos hlt]
      simp [startIndex, hs, hr, rowStep, hdir, hnext]
    have hsk := seek_forward_exhausted v.rows itemsAway hdir (v.rows.length + 1) (i + 1)
      (fun k hk => hnone k (by omega))
    rw [hsib, hstart, hsk]
  · intro hdir hpos hnone
    have hstart : startIndex px v.rows i draw itemsAway = some (i - 1) := by
      have hprev : index v.rows ((i : Int) + -1) = some (i - 1) := by
        rw [index_pred, if_pos ⟨hpos, by omega⟩]
      simp [startIndex, hs, hr, rowStep, hdir, hprev]
    have hsk := seek_backward_exhausted v.rows itemsAway hdir (v.rows.length + 1) (i - 1)
      (fun k hk => hnone k (by omega))
    rw [hsib, hstart, hsk]

/-- Instance of C20: siblings A (online), B (offline), current row A, repeat mode
All: a forward step returns empty and clears the current index. -/
theorem siblingItem_repeatAll_no_wrap_midlist_witness :
    siblingItem (proxyWith RepeatMode.RepeatAll)
      { rows := [some trackA, some trackB], current := some 0 } 0 1 false =
      (none, { rows := [some trackA, some trackB], current := none }) :=
  (siblingItem_repeatAll_no_wrap_midlist (proxyWith RepeatMode.RepeatAll)
    { rows := [some trackA, some trackB], current := some 0 } 0 1 false 0 rfl rfl rfl).1
    (by decide) (by decide) (fun k hk => by
      by_cases h1 : k = 1
      · subst h1; rfl
      · exact onlineResult_eq_none_of_length_le _ k (by
          show 2 ≤ k
          omega))

/-! ## Filter controller: `setFilter` -/

/-- Disconnecting a command changes no handle and no command of the queue. -/
theorem disconnectCmd_queue_cmds (c : Controller) (h : Nat) :
    (disconnectCmd c h).queue.map (fun q => (q.handle, q.cmd)) =
      c.queue.map (fun q => (q.handle, q.cmd)) := by
  simp only [disconnectCmd, List.map_map]
  apply List.map_congr_left
  intro q _
  simp only [Function.comp]
  split <;> rfl

/-- Effects of `setFilter` with a non-empty pattern on a proxy with a source
model attached, stated on the state in which the event loop goes on. -/
theorem setFilter_nonempty_effects (m : TreeModel) (c : Controller) (pattern : String)
    (hp : pattern ≠ "") :
    (step m c (Event.setFilter pattern)).emitted = c.emitted ++ [Signal.filteringStarted] ∧
      (∃ old, old.map (fun q => (q.handle, q.cmd)) = c.queue.map (fun q => (q.handle, q.cmd)) ∧
        (step m c (Event.setFilter pattern)).queue = old ++
          [{ handle := c.nextHandle, cmd := DatabaseCommand.AllArtists pattern,
             connected := true }]) ∧
      (step m c (Event.setFilter pattern)).nextHandle = c.nextHandle + 1 ∧
      (step m c (Event.setFilter pattern)).proxy.m_artistsFilterCmd = some c.nextHandle ∧
      (step m c (Event.setFilter pattern)).proxy.m_filter = pattern ∧
      (step m c (Event.setFilter pattern)).proxy.m_albumsFilter = [] := by
  have hne : pattern.isEmpty = false := by
    cases he : pattern.isEmpty with
    | false => rfl
    | true => exact absurd ((String.isEmpty_iff pattern).mp he) hp
  simp only [step, setFilter]
  cases hh : c.proxy.m_artistsFilterCmd with
  | none =>
    simp only [hh, hne]
    refine ⟨by simp [enqueue], ⟨c.queue, rfl, by simp [enqueue]⟩, by simp [enqueue],
      by simp [enqueue], by simp [enqueue], by simp [enqueue]⟩
  | some h =>
    simp only [hh, hne]
    refine ⟨by simp [enqueue, disconnectCmd], ⟨(disconnectCmd c h).queue,
      disconnectCmd_queue_cmds c h, by simp [enqueue, disconnectCmd]⟩,
      by simp [enqueue, disconnectCmd], by simp [enqueue, disconnectCmd],
      by simp [enqueue, disconnectCmd], by simp [enqueue, disconnectCmd]⟩

/-- Whenever the duplicate block ends without fault on a row with result `r` in
`DatabaseMode`: it returns "accept" exactly when the cache loop stops at the
very instance of the row. -/
theorem duplicateCheck_ok_true (px : TreeProxyModel) (m : TreeModel) (sourceRow : Nat)
    (parent : ModelIndex) (item : TreeModelItem) (r : Result) (d : Option Bool)
    (hr : item.result = some r) (hmode : m.mode = ModelMode.DatabaseMode)
    (h : duplicateCheck px m item sourceRow parent = .ok d) :
    (d = some true ↔ ∃ c, firstCached px parent r = some c ∧ c.ptr = r.ptr) := by
  unfold duplicateCheck at h
  rw [hr] at h
  dsimp only at h
  rw [if_pos (by simp [hmode])] at h
  cases hsc : scanCache r (cacheValues px.m_cache parent) with
  | error e => rw [hsc] at h; cases h
  | ok dc =>
    rw [hsc] at h
    have hdc := scanCache_ok r (cacheValues px.m_cache parent) dc hsc
    change dc = (firstCached px parent r).map (fun c => c.ptr == r.ptr) at hdc
    cases hfc : firstCached px parent r with
    | some c =>
      rw [hfc] at hdc
      subst hdc
      dsimp only [Option.map] at h
      cases h
      by_cases hp : c.ptr = r.ptr <;> simp [hp]
    | none =>
      rw [hfc] at hdc
      subst hdc
      dsimp only [Option.map] at h
      cases hss : scanSiblings item r sourceRow 0 (m.children parent) with
      | error e => rw [hss] at h; cases h
      | ok b =>
        rw [hss] at h
        cases b <;> cases h <;> simp

/-- C16 (as stated, refuted): from a proxy with empty cache, accepting the row
`twinA` caches its result; evaluating the same row again returns true and
leaves the cache as it is, adding no entry. -/
theorem accepted_again_without_cache_entry :
    filterAcceptsRow (proxyWith RepeatMode.NoRepeat) (databaseModel [some twinA, some twinB]) 0 0
      = .ok (true, proxyCachedTwinA) ∧
    filterAcceptsRow proxyCachedTwinA (databaseModel [some twinA, some twinB]) 0 0
      = .ok (true, proxyCachedTwinA) :=
  ⟨rfl, rfl⟩

/-- C16 (amended): whenever `filterAcceptsRow` returns a verdict on a row, a
verdict "false" leaves the proxy unchanged; a verdict "true" leaves the proxy
unchanged when the row's own result is the first matching cached result of its
parent (the cache loop returns true), and otherwise adds exactly one entry, the
parent mapped to the result of the row, to the cache and changes nothing else. -/
theorem filterAcceptsRow_cache_effect (px : TreeProxyModel) (m : TreeModel) (sourceRow : Nat)
    (parent : ModelIndex) (item : TreeModelItem) (v : Bool) (px' : TreeProxyModel)
    (hitem : (m.children parent).get? sourceRow = some (some item))
    (h : filterAcceptsRow px m sourceRow parent = .ok (v, px')) :
    (v = false → px' = px) ∧
    (v = true → OwnResultCached px m parent item → px' = px) ∧
    (v = true → ¬ OwnResultCached px m parent item →
      px' = { px with m_cache := (parent, item.result) :: px.m_cache }) := by
  rw [filterAcceptsRow_of_item px m sourceRow parent item hitem] at h
  cases hd : duplicateCheck px m item sourceRow parent with
  | error e => rw [hd] at h; cases h
  | ok d =>
    rw [hd] at h
    by_cases hpath : m.mode = ModelMode.DatabaseMode ∧ item.result ≠ none
    · obtain ⟨hmode, hsome⟩ := hpath
      obtain ⟨r, hr⟩ := Option.ne_none_iff_exists'.mp hsome
      have hown : d = some true ↔ OwnResultCached px m parent item := by
        rw [duplicateCheck_ok_true px m sourceRow parent item r d hr hmode hd]
        unfold OwnResultCached
        constructor
        · rintro ⟨c, h1, h2⟩
          exact ⟨hmode, r, c, hr, h1, h2⟩
        · rintro ⟨_, r', c, hr', h1, h2⟩
          rw [hr] at hr'
          cases hr'
          exact ⟨c, h1, h2⟩
      cases d with
      | some b =>
        cases h
        refine ⟨fun _ => rfl, fun _ _ => rfl, fun hv hn => ?_⟩
        subst hv
        exact absurd (hown.mp rfl) hn
      | none =>
        have hn : ¬ OwnResultCached px m parent item := fun ho => by
          have := hown.mpr ho
          cases this
        dsimp only at h
        split at h
        · cases h
          refine ⟨fun _ => rfl, fun hv => ?_, fun hv => ?_⟩ <;> cases hv
        · cases h
          refine ⟨fun hv => ?_, fun _ ho => absurd ho hn, fun _ _ => rfl⟩
          cases hv
    · have hout : m.mode ≠ ModelMode.DatabaseMode ∨ item.result = none := by
        by_cases hm : m.mode = ModelMode.DatabaseMode
        · right
          by_contra hn
          exact hpath ⟨hm, hn⟩
        · left; exact hm
      have hn : ¬ OwnResultCached px m parent item := by
        rintro ⟨hm, r, c, hr, _⟩
        exact hpath ⟨hm, by rw [hr]; simp⟩
      rw [duplicateCheck_outside px m sourceRow parent item hout] at hd
      cases hd
      dsimp only at h
      split at h
      · cases h
        refine ⟨fun _ => rfl, fun hv => ?_, fun hv => ?_⟩ <;> cases hv
      · cases h
        refine ⟨fun hv => ?_, fun _ ho => absurd ho hn, fun _ _ => rfl⟩
        cases hv

/-- Instance of C16 (amended): the first evaluation of the row `twinA`, from an
empty cache, returns true with the proxy `proxyCachedTwinA`. -/
theorem filterAcceptsRow_cache_effect_witness :
    (true = false → proxyCachedTwinA = proxyWith RepeatMode.NoRepeat) ∧
    (true = true →
      OwnResultCached (proxyWith RepeatMode.NoRepeat) (databaseModel [some twinA, some twinB]) 0
        twinA → proxyCachedTwinA = proxyWith RepeatMode.NoRepeat) ∧
    (true = true →
      ¬ OwnResultCached (proxyWith RepeatMode.NoRepeat) (databaseModel [some twinA, some twinB]) 0
        twinA →
      proxyCachedTwinA = { proxyWith RepeatMode.NoRepeat with
        m_cache := (0, twinA.result) :: (proxyWith RepeatMode.NoRepeat).m_cache }) :=
  filterAcceptsRow_cache_effect (proxyWith RepeatMode.NoRepeat)
    (databaseModel [some twinA, some twinB]) 0 0 twinA true proxyCachedTwinA rfl rfl

/-- C15 (evaluation at the failing input): in `DatabaseMode`, next to the
sibling `queryHelp`, which has the same name but no result, evaluating the row
`twinA` dereferences the missing result of the sibling (line 227) and yields no
verdict; and after the row `queryHelp` has been accepted, which caches its null
result, evaluating `twinA` dereferences that null cache entry (line 212). -/
theorem sibling_or_cache_entry_without_result_faults :
    filterAcceptsRow (proxyWith RepeatMode.NoRepeat)
      (databaseModel [some twinA, some queryHelp]) 0 0 = .error Fault.nullDeref ∧
    filterAcceptsRow (proxyWith RepeatMode.NoRepeat)
      (databaseModel [some twinA, some queryHelp]) 1 0
      = .ok (true, { proxyWith RepeatMode.NoRepeat with m_cache := [(0, none)] }) ∧
    filterAcceptsRow { proxyWith RepeatMode.NoRepeat with m_cache := [(0, none)] }
      (databaseModel [some twinA, some queryHelp]) 0 0 = .error Fault.nullDeref :=
  ⟨rfl, rfl, rfl⟩

/-- C12 (evaluation at the failing input): the rows `twinA` (album position 2)
and `twinZero` (album position 0) carry distinct result instances of the same
track.  After `twinA` has been accepted and cached, `twinZero` is accepted as
well, although the cache holds another instance of its track and its own
position is 0; in the opposite order the second row is rejected. -/
theorem cached_duplicate_missed_when_row_position_zero :
    filterAcceptsRow proxyCachedTwinA (databaseModel [some twinA, some twinZero]) 1 0
      = .ok (true, { proxyCachedTwinA with
          m_cache := [(0, twinZero.result), (0, twinA.result)] }) ∧
    acceptTwo (proxyWith RepeatMode.NoRepeat) (databaseModel [some twinA, some twinZero]) 0 0 1
      = .ok (true, true) ∧
    acceptTwo (proxyWith RepeatMode.NoRepeat) (databaseModel [some twinA, some twinZero]) 0 1 0
      = .ok (true, false) :=
  ⟨rfl, rfl, rfl⟩

/-! ## Row acceptance engine: track rows and filter terms -/

/-- C11 (as stated, refuted): the filter text "help", tab, "beatles" splits on
whitespace into the terms "help" and "beatles", each of which occurs in the
track name or the artist name of the track row `twinA`; the row has no cached
duplicate and no sibling; yet `filterAcceptsRow` rejects it, because the code
splits on the space character only and looks for the whole text as one term. -/
theorem tab_separated_terms_rejected :
    splitWhitespace proxyTab.m_filter = ["help", "beatles"] ∧
    (∀ s ∈ splitWhitespace proxyTab.m_filter,
      containsCI twinA.name s = true ∨ containsCI twinA.albumName s = true ∨
        containsCI twinA.artistName s = true) ∧
    twinA.artist = none ∧ twinA.album = none ∧ proxyTab.m_cache = [] ∧
    filterAcceptsRow proxyTab (databaseModel [some twinA]) 0 0 = .ok (false, proxyTab) := by
  refine ⟨by decide, by decide, rfl, rfl, rfl, rfl⟩

/-- C11 (amended): with a non-empty filter text, for a track-level row (no
artist and no album reference) for which, in `DatabaseMode` with a result, no
cached result of the parent matches and no sibling is preferred: whenever
`filterAcceptsRow` returns a verdict, it is "true" exactly when every term
obtained by splitting the filter text on the space character occurs, compared
case-insensitively, in at least one of the name, the album name and the artist
name of the row; and a verdict is returned whenever, in `DatabaseMode` for a
row with a result, the sibling rows are resolved and the cached results of the
parent are non-null, and always outside that case. -/
theorem filterAcceptsRow_track_terms (px : TreeProxyModel) (m : TreeModel) (sourceRow : Nat)
    (parent : ModelIndex) (item : TreeModelItem)
    (hitem : (m.children parent).get? sourceRow = some (some item))
    (hfilter : px.m_filter ≠ "")
    (hartist : item.artist = none) (halbum : item.album = none)
    (hnodup : m.mode = ModelMode.DatabaseMode → ∀ r, item.result = some r →
      firstCached px parent r = none ∧
        ¬ PreferredSibling (m.children parent) sourceRow item r) :
    (∀ v px', filterAcceptsRow px m sourceRow parent = .ok (v, px') →
      (v = true ↔ TermsOccur px.m_filter item)) ∧
    ((m.mode = ModelMode.DatabaseMode → item.result ≠ none →
        RowsResolved (m.children parent) ∧ ∀ e ∈ cacheValues px.m_cache parent, e ≠ none) →
      ∃ v px', filterAcceptsRow px m sourceRow parent = .ok (v, px')) := by
  have hne : px.m_filter.isEmpty = false := by
    cases he : px.m_filter.isEmpty with
    | false => rfl
    | true => exact absurd ((String.isEmpty_iff px.m_filter).mp he) hfilter
  have hkind : acceptedByKind px item = false := by
    simp [acceptedByKind, hne, hartist, halbum]
  -- the verdict once control reaches the filter-matching stage
  have hstage : ∀ v px',
      (if (!acceptedByKind px item && !termsMatch px item) = true then
          (Except.ok (false, px) : Except Fault (Bool × TreeProxyModel))
        else .ok (true, { px with m_cache := insertMulti px.m_cache parent item.result }))
        = .ok (v, px') → (v = true ↔ TermsOccur px.m_filter item) := by
    intro v px' h
    rw [← termsMatch_iff]
    rw [hkind] at h
    cases ht : termsMatch px item <;> rw [ht] at h <;> simp at h <;> simp [h.1.symm]
  rw [filterAcceptsRow_of_item px m sourceRow parent item hitem]
  by_cases hpath : m.mode = ModelMode.DatabaseMode ∧ item.result ≠ none
  · obtain ⟨hmode, hsome⟩ := hpath
    obtain ⟨r, hr⟩ := Option.ne_none_iff_exists'.mp hsome
    obtain ⟨hfc, hpref⟩ := hnodup hmode r hr
    have hdnone : ∀ d, duplicateCheck px m item sourceRow parent = .ok d → d = none := by
      intro d hd
      have h1 := duplicateCheck_ok px m sourceRow parent item r d hr hmode hd
      have h2 := duplicateCheck_ok_true px m sourceRow parent item r d hr hmode hd
      rw [hfc] at h1 h2
      cases d with
      | none => rfl
      | some b =>
        cases b
        · have := h1.mp rfl
          rcases this with ⟨c, hc, _⟩ | ⟨_, hp⟩
          · cases hc
          · exact absurd hp hpref
        · obtain ⟨c, hc, _⟩ := h2.mp rfl
          cases hc
    constructor
    · intro v px' h
      cases hd : duplicateCheck px m item sourceRow parent with
      | error e => rw [hd] at h; cases h
      | ok d =>
        rw [hd, hdnone d hd] at h
        exact hstage v px' h
    · intro hres
      obtain ⟨hrows, hcache⟩ := hres hmode hsome
      obtain ⟨d, hd, _⟩ :=
        duplicateCheck_spec px m sourceRow parent item r hitem hr hmode hrows hcache
      rw [hd, hdnone d hd]
      dsimp only
      split
      · exact ⟨false, px, rfl⟩
      · exact ⟨true, _, rfl⟩
  · have hout : m.mode ≠ ModelMode.DatabaseMode ∨ item.result = none := by
      by_cases hm : m.mode = ModelMode.DatabaseMode
      · right
        by_contra hn
        exact hpath ⟨hm, hn⟩
      · left; exact hm
    rw [duplicateCheck_outside px m sourceRow parent item hout]
    constructor
    · intro v px' h
      exact hstage v px' h
    · intro _
      dsimp only
      split
      · exact ⟨false, px, rfl⟩
      · exact ⟨true, _, rfl⟩

/-- Instance of C11 (amended): under the filter "help beatles" the track row
`twinA` is accepted, and the two terms occur in its track name and its artist
name. -/
theorem filterAcceptsRow_track_terms_witness :
    filterAcceptsRow proxyHelpBeatles (databaseModel [some twinA]) 0 0
      = .ok (true, { proxyHelpBeatles with m_cache := [(0, twinA.result)] }) ∧
    (true = true ↔ TermsOccur proxyHelpBeatles.m_filter twinA) :=
  ⟨rfl, (filterAcceptsRow_track_terms proxyHelpBeatles (databaseModel [some twinA]) 0 0 twinA
    rfl (by decide) rfl rfl
    (fun _ r _ => ⟨rfl, fun ⟨i, ti, tr, hne, hget, _⟩ => by
      cases i with
      | zero => exact hne rfl
      | succ n => cases hget⟩)).1 true
    { proxyHelpBeatles with m_cache := [(0, twinA.result)] } rfl⟩

/-! ## Filter controller: album completions -/

/-- The number of album commands is the number of artists that have rows. -/
theorem albumCommands_length (m : TreeModel) (filter : String) :
    ∀ (artists : List Artist) (start : Nat),
      (albumCommands m filter start artists).length =
        (artists.filter (fun a => m.artistRowCount a != 0)).length := by
  intro artists
  induction artists with
  | nil => intro _; rfl
  | cons a rest ih =>
    intro start
    by_cases h : (m.artistRowCount a != 0) = true
    · simp only [albumCommands, h, if_true, List.filter_cons_of_pos, List.length_cons, ih]
    · simp only [albumCommands, List.filter_cons, h, if_false]
      exact ih start

/-- The handles of the album commands are consecutive from `start`. -/
theorem albumCommands_handles (m : TreeModel) (filter : String) :
    ∀ (artists : List Artist) (start : Nat),
      (albumCommands m filter start artists).map (fun q => q.handle) =
        List.range' start (albumCommands m filter start artists).length := by
  intro artists
  induction artists with
  | nil => intro _; rfl
  | cons a rest ih =>
    intro start
    by_cases h : (m.artistRowCount a != 0) = true
    · simp only [albumCommands, h, if_true, List.map_cons, List.length_cons, List.range'_succ,
        ih (start + 1)]
    · have h' : ¬ (m.artistRowCount a != 0) = true := h
      simp only [albumCommands, h']
      exact ih start

/-- Every album command is a connected `AllAlbums` command. -/
theorem albumCommands_mem (m : TreeModel) (filter : String) (q : PendingCommand) :
    ∀ (artists : List Artist) (start : Nat), q ∈ albumCommands m filter start artists →
      q.connected = true ∧ ∃ a, q.cmd = DatabaseCommand.AllAlbums a filter := by
  intro artists
  induction artists with
  | nil => intro _ h; cases h
  | cons a rest ih =>
    intro start h
    by_cases hr : (m.artistRowCount a != 0) = true
    · simp only [albumCommands, hr, if_true, List.mem_cons] at h
      rcases h with rfl | h
      · exact ⟨rfl, a, rfl⟩
      · exact ih (start + 1) h
    · have hr' : ¬ (m.artistRowCount a != 0) = true := hr
      simp only [albumCommands, hr'] at h
      exact ih start (by simpa using h)

/-- The loop of `onFilterArtists`: it appends the album commands to the queue,
allots their handles, leaves proxy and signals alone, and clears `finished` as
soon as one command is enqueued. -/
theorem requestAlbums_eq (m : TreeModel) :
    ∀ (artists : List Artist) (c : Controller) (finished : Bool),
      requestAlbums m artists (c, finished) =
        ({ c with
            queue := c.queue ++ albumCommands m c.proxy.m_filter c.nextHandle artists,
            nextHandle := c.nextHandle +
              (albumCommands m c.proxy.m_filter c.nextHandle artists).length },
         finished && (albumCommands m c.proxy.m_filter c.nextHandle artists).isEmpty) := by
  intro artists
  induction artists with
  | nil =>
    intro c finished
    simp [requestAlbums, albumCommands]
  | cons a rest ih =>
    intro c finished
    by_cases hr : (m.artistRowCount a != 0) = true
    · rw [requestAlbums, if_pos hr, ih]
      simp only [albumCommands, hr, if_true, enqueue, List.length_cons, List.isEmpty_cons,
        Bool.and_false, Bool.false_and, List.append_assoc, List.singleton_append]
      congr 2
      omega
    · rw [requestAlbums, if_neg hr, ih]
      simp only [albumCommands, hr]
      simp

/-- Completion of an in-flight, connected album command with handle `x`: the
command leaves the queue and `onFilterAlbums` runs on its result. -/
theorem step_albums_of_pending (m : TreeModel) (c : Controller) (x : Nat) (result : List Album)
    (hex : ∃ q ∈ c.queue, q.handle = x)
    (hall : ∀ q ∈ c.queue, q.handle = x →
      q.connected = true ∧ ∃ a f, q.cmd = DatabaseCommand.AllAlbums a f) :
    step m c (Event.albums x result) =
      onFilterAlbums { c with queue := c.queue.filter (fun p => !(p.handle == x)) } result := by
  cases hfind : c.queue.find? (fun p => p.handle == x) with
  | none =>
    obtain ⟨q, hq, hqx⟩ := hex
    have := List.find?_eq_none.mp hfind q hq
    simp [hqx] at this
  | some q =>
    have hmem := List.mem_of_find?_eq_some hfind
    have hqx : q.handle = x := by
      have := List.find?_some hfind
      simpa using this
    obtain ⟨hconn, a, f, hcmd⟩ := hall q hmem hqx
    simp only [step, complete, hfind, hcmd, hconn, if_true]

/-- Completion of the artist command with handle `h` that `setFilter` has just
enqueued behind commands with smaller handles: `onFilterArtists` runs on the
queue without it. -/
theorem step_artists_of_fresh (m : TreeModel) (c : Controller) (old : List PendingCommand)
    (h : Nat) (pattern : String) (result : List Artist)
    (hq : c.queue = old ++
      [{ handle := h, cmd := DatabaseCommand.AllArtists pattern, connected := true }])
    (hold : ∀ q ∈ old, q.handle < h) :
    step m c (Event.artists h result) = onFilterArtists m { c with queue := old } result := by
  have hfindold : old.find? (fun p => p.handle == h) = none := by
    rw [List.find?_eq_none]
    intro q hq'
    have := hold q hq'
    simp
    omega
  have hfilterold : old.filter (fun p => !(p.handle == h)) = old := by
    rw [List.filter_eq_self]
    intro q hq'
    have := hold q hq'
    simp
    omega
  simp [step, complete, hq, List.find?_append, hfindold, List.filter_append, hfilterold]

/-- A run of album completions with distinct handles, each the handle of an
in-flight connected album command: every completion emits the signals of one
`filterFinished`. -/
theorem run_album_completions (m : TreeModel) (p : String) :
    ∀ (hs : List (Nat × List Album)) (c : Controller),
      (hs.map Prod.fst).Nodup → c.proxy.m_filter = p →
      (∀ x ∈ hs.map Prod.fst, (∃ q ∈ c.queue, q.handle = x) ∧
        ∀ q ∈ c.queue, q.handle = x →
          q.connected = true ∧ ∃ a f, q.cmd = DatabaseCommand.AllAlbums a f) →
      (run m c (hs.map (fun x => Event.albums x.1 x.2))).emitted =
        c.emitted ++ (List.replicate hs.length (finishedSignals p)).flatten := by
  intro hs
  induction hs with
  | nil =>
    intro c _ _ _
    simp [run]
  | cons e rest ih =>
    intro c hnd hfilter hinv
    obtain ⟨x, result⟩ := e
    simp only [List.map_cons, List.nodup_cons] at hnd
    obtain ⟨hx, hndrest⟩ := hnd
    obtain ⟨hex, hall⟩ := hinv x (by simp)
    have hstep := step_albums_of_pending m c x result hex hall
    have hrun : run m c (List.map (fun x => Event.albums x.1 x.2) ((x, result) :: rest)) =
        run m (step m c (Event.albums x result)) (rest.map (fun x => Event.albums x.1 x.2)) := by
      simp [run]
    rw [hrun, hstep]
    have hc' := ih (onFilterAlbums { c with queue := c.queue.filter (fun p => !(p.handle == x)) }
      result) hndrest (by simp [onFilterAlbums, filterFinished, hfilter]) (by
        intro y hy
        have hyx : y ≠ x := fun h => hx (h ▸ hy)
        obtain ⟨⟨q, hq, hqy⟩, hally⟩ := hinv y (List.mem_cons_of_mem _ hy)
        constructor
        · refine ⟨q, ?_, hqy⟩
          simp only [onFilterAlbums, filterFinished, List.mem_filter]
          refine ⟨hq, ?_⟩
          simp [hqy, hyx]
        · intro q' hq' hq'y
          simp only [onFilterAlbums, filterFinished, List.mem_filter] at hq'
          exact hally q' hq'.1 hq'y)
    rw [hc']
    simp [onFilterAlbums, filterFinished, hfilter, finishedSignals, List.replicate_succ]

/-- C13 (as stated, refuted): `setFilter( "abc" )` on a fresh proxy, artist
resolution returning two artists with loaded rows, then the completion of the
first of the two album requests: `filteringFinished` has already been emitted
although the second album request (handle 2) is still in flight; after the
second completion it has been emitted twice. -/
theorem filteringFinished_emitted_per_album_completion :
    (run loadedModel Controller.init
      [Event.setFilter "abc", Event.artists 0 [artistAbc, artistAbcd], Event.albums 1 []]).emitted
      = [Signal.filteringStarted, Signal.filterChanged "abc", Signal.trackCountChanged,
         Signal.filteringFinished] ∧
    (run loadedModel Controller.init
      [Event.setFilter "abc", Event.artists 0 [artistAbc, artistAbcd], Event.albums 1 []]).queue
      = [{ handle := 2, cmd := DatabaseCommand.AllAlbums artistAbcd "abc", connected := true }] ∧
    (run loadedModel Controller.init
      [Event.setFilter "abc", Event.artists 0 [artistAbc, artistAbcd], Event.albums 1 [],
       Event.albums 2 []]).emitted
      = [Signal.filteringStarted, Signal.filterChanged "abc", Signal.trackCountChanged,
         Signal.filteringFinished, Signal.filterChanged "abc", Signal.trackCountChanged,
         Signal.filteringFinished] :=
  ⟨rfl, rfl, rfl⟩

/-- The state after `setFilter( pattern )` with a non-empty pattern and the
completion of the artist command it enqueued: the filter text is the pattern,
only `filteringStarted` has been emitted, and the queue holds, behind commands
with handles below the handle of the artist command, the album commands. -/
theorem after_artists_completion (m : TreeModel) (c : Controller) (pattern : String)
    (artists : List Artist) (hp : pattern ≠ "")
    (hfresh : ∀ q ∈ c.queue, q.handle < c.nextHandle)
    (hk : 1 ≤ (artists.filter (fun a => m.artistRowCount a != 0)).length) :
    (step m (step m c (Event.setFilter pattern)) (Event.artists c.nextHandle artists)).emitted =
      c.emitted ++ [Signal.filteringStarted] ∧
    (step m (step m c (Event.setFilter pattern)) (Event.artists c.nextHandle artists)).proxy.m_filter = pattern ∧
    ∃ old, (∀ q ∈ old, q.handle < c.nextHandle) ∧
      (step m (step m c (Event.setFilter pattern)) (Event.artists c.nextHandle artists)).queue =
        old ++ albumCommands m pattern (c.nextHandle + 1) artists := by
  obtain ⟨hem, ⟨old, hold, hqueue⟩, hnext, hcmd, hfil, _⟩ :=
    setFilter_nonempty_effects m c pattern hp
  have holdlt : ∀ q ∈ old, q.handle < c.nextHandle := by
    intro q hq
    have hmem : (q.handle, q.cmd) ∈ old.map (fun q => (q.handle, q.cmd)) :=
      List.mem_map_of_mem _ hq
    rw [hold] at hmem
    obtain ⟨q0, hq0, heq⟩ := List.mem_map.mp hmem
    have : q0.handle = q.handle := congrArg Prod.fst heq
    rw [← this]
    exact hfresh q0 hq0
  rw [step_artists_of_fresh m (step m c (Event.setFilter pattern)) old c.nextHandle pattern artists hqueue holdlt]
  have hlen := albumCommands_length m pattern artists (c.nextHandle + 1)
  have hne : (albumCommands m pattern (c.nextHandle + 1) artists).isEmpty = false := by
    cases hl : albumCommands m pattern (c.nextHandle + 1) artists with
    | nil => rw [hl] at hlen; simp at hlen; omega
    | cons _ _ => rfl
  unfold onFilterArtists
  simp only [requestAlbums_eq, hfil, hnext, hne, Bool.and_false, Bool.false_eq_true, if_false]
  exact ⟨hem, trivial, old, holdlt, rfl⟩

/-- C13 (amended): after `setFilter( p )` with a non-empty `p` on a proxy with
the source model `m` attached whose in-flight commands have handles below the
next free handle, and an artist
resolution that returns artists of which `k >= 1` have loaded rows, no
`filteringFinished` has been emitted for the request; and for every order in
which the `k` album commands complete, each completion emits `filterChanged`,
`trackCountChanged`, `filteringFinished` once: after `n` of the `k` completions
`filteringFinished` has been emitted `n` times, `k` times in all. -/
theorem filteringFinished_once_per_album (m : TreeModel) (c : Controller) (p : String)
    (artists : List Artist) (hs : List (Nat × List Album)) (hp : p ≠ "")
    (hfresh : ∀ q ∈ c.queue, q.handle < c.nextHandle)
    (hk : 1 ≤ (artists.filter (fun a => m.artistRowCount a != 0)).length)
    (horder : (hs.map Prod.fst).Perm (List.range' (c.nextHandle + 1)
      (artists.filter (fun a => m.artistRowCount a != 0)).length)) :
    (step m (step m c (Event.setFilter p)) (Event.artists c.nextHandle artists)).emitted =
      c.emitted ++ [Signal.filteringStarted] ∧
    ∀ n, n ≤ hs.length →
      (run m (step m (step m c (Event.setFilter p)) (Event.artists c.nextHandle artists))
        ((hs.take n).map (fun x => Event.albums x.1 x.2))).emitted =
        c.emitted ++ [Signal.filteringStarted] ++
          (List.replicate n (finishedSignals p)).flatten := by
  obtain ⟨hem, hfil, old, hold, hqueue⟩ := after_artists_completion m c p artists hp hfresh hk
  refine ⟨hem, fun n hn => ?_⟩
  have hnd : (hs.map Prod.fst).Nodup := horder.nodup_iff.mpr (List.nodup_range' _ _)
  have hndtake : ((hs.take n).map Prod.fst).Nodup := by
    rw [List.map_take]
    exact hnd.sublist (List.take_sublist _ _)
  have hinv : ∀ x ∈ (hs.take n).map Prod.fst,
      (∃ q ∈ (step m (step m c (Event.setFilter p)) (Event.artists c.nextHandle artists)).queue, q.handle = x) ∧
      ∀ q ∈ (step m (step m c (Event.setFilter p)) (Event.artists c.nextHandle artists)).queue, q.handle = x →
        q.connected = true ∧ ∃ a f, q.cmd = DatabaseCommand.AllAlbums a f := by
    intro x hx
    rw [List.map_take] at hx
    have hxr := horder.mem_iff.mp (List.mem_of_mem_take hx)
    rw [← albumCommands_length m p artists (c.nextHandle + 1),
      ← albumCommands_handles m p artists (c.nextHandle + 1)] at hxr
    obtain ⟨q, hq, hqx⟩ := List.mem_map.mp hxr
    have hxlow : c.nextHandle + 1 ≤ x := by
      have := horder.mem_iff.mp (List.mem_of_mem_take hx)
      rw [List.mem_range'] at this
      obtain ⟨i, _, rfl⟩ := this
      omega
    rw [hqueue]
    constructor
    · exact ⟨q, List.mem_append_right _ hq, hqx⟩
    · intro q' hq' hq'x
      rcases List.mem_append.mp hq' with h | h
      · have := hold q' h
        omega
      · obtain ⟨h1, a, h2⟩ := albumCommands_mem m p q' artists (c.nextHandle + 1) h
        exact ⟨h1, a, p, h2⟩
  rw [run_album_completions m p (hs.take n) _ hndtake hfil hinv, hem,
    List.length_take, Nat.min_eq_left hn]

/-- Instance of C13 (amended): on a fresh proxy with filter "abc" and two artists
with loaded rows, the album commands complete in the order 2, 1; after both
completions the signals of `filterFinished` have been emitted twice. -/
theorem filteringFinished_once_per_album_witness :
    (run loadedModel
      (step loadedModel (step loadedModel Controller.init (Event.setFilter "abc"))
        (Event.artists Controller.init.nextHandle [artistAbc, artistAbcd]))
      (([(2, []), (1, [])] : List (Nat × List Album)).take 2 |>.map
        (fun x => Event.albums x.1 x.2))).emitted =
      Controller.init.emitted ++ [Signal.filteringStarted] ++
        (List.replicate 2 (finishedSignals "abc")).flatten :=
  (filteringFinished_once_per_album loadedModel Controller.init "abc" [artistAbc, artistAbcd]
    [(2, []), (1, [])] (by decide) (fun q hq => by cases hq) (by decide)
    (List.Perm.swap 1 2 [])).2 2 (by decide)

end Tomahawk
